import Mathlib

/-!
Verification model of the svg_translate_py repository.

The Python sources under CopySvgTranslate are shallowly embedded here:
XML element trees (as built by lxml) become the inductive type `Elem`
(tag, attribute list, leading text, children, tail text), a parsed file
becomes `Doc` (default-namespace declaration plus root), and each pass of
`injection/preparation.py`, `extraction/extractor.py` and `titles.py`
becomes a computable Lean function with the same name where possible.
Python string primitives (strip, lower, title, isdigit, the regular
expressions used by the code) are modelled character by character.

Modelling notes, fixed once here:
comment and processing-instruction nodes are not modelled (children are
element nodes only); character casing follows ASCII rules; detached
subtrees produced while a switch is being expanded are not re-examined,
matching the final tree the code produces.
-/

namespace SvgModel

/-! ## Python string primitives -/

/-- Whitespace characters recognised by Python's str.strip and the regex class backslash-s. -/
def pyIsSpace (c : Char) : Bool :=
  c = ' ' || c = '\t' || c = '\n' || c = '\x0d' || c = '\x0b' || c = '\x0c'

/-- Python str.strip with no arguments: drop leading and trailing whitespace. -/
def pyStrip (s : String) : String :=
  ⟨(((s.data.dropWhile pyIsSpace).reverse).dropWhile pyIsSpace).reverse⟩

/-- Python str.lower for the ASCII range. -/
def pyLower (s : String) : String :=
  ⟨s.data.map Char.toLower⟩

/-- Python str.upper for the ASCII range. -/
def pyUpper (s : String) : String :=
  ⟨s.data.map Char.toUpper⟩

/-- Helper for `pyTitle`: the Bool records whether the previous character was alphabetic. -/
def pyTitleGo : Bool → List Char → List Char
  | _, [] => []
  | prevAlpha, c :: cs =>
    (if c.isAlpha then (if prevAlpha then c.toLower else c.toUpper) else c)
      :: pyTitleGo c.isAlpha cs

/-- Python str.title for the ASCII range: first letter of each alphabetic run
upper-cased, the rest lower-cased. -/
def pyTitle (s : String) : String :=
  ⟨pyTitleGo false s.data⟩

/-- Python str.isdigit restricted to ASCII: non-empty and all decimal digits. -/
def pyIsDigitStr (s : String) : Bool :=
  !s.data.isEmpty && s.data.all (fun c => c.isDigit)

/-- Last four characters, Python slice s[-4:] (the whole string when shorter). -/
def pyLast4 (s : String) : String :=
  ⟨s.data.drop (s.data.length - 4)⟩

/-- All but the last four characters, Python slice s[:-4] (empty when shorter). -/
def pyDropLast4 (s : String) : String :=
  ⟨s.data.take (s.data.length - 4)⟩

mutual

/-- Splitter for re.split over a character-class-plus pattern: collecting a piece. -/
def splitRunsGo (p : Char → Bool) (acc : List Char) : List Char → List (List Char)
  | [] => [acc.reverse]
  | c :: cs => if p c then acc.reverse :: splitRunsSkip p cs else splitRunsGo p (c :: acc) cs

/-- Splitter for re.split over a character-class-plus pattern: inside a separator run. -/
def splitRunsSkip (p : Char → Bool) : List Char → List (List Char)
  | [] => [[]]
  | c :: cs => if p c then splitRunsSkip p cs else splitRunsGo p [c] cs

end

/-- re.split on a maximal run of separator characters (pattern class-plus). -/
def splitRuns (p : Char → Bool) (l : List Char) : List (List Char) :=
  splitRunsGo p [] l

mutual

/-- Splitter for re.split on comma-then-whitespace: collecting a piece. -/
def splitCommaGo (acc : List Char) : List Char → List (List Char)
  | [] => [acc.reverse]
  | c :: cs => if c = ',' then acc.reverse :: splitCommaSkip cs else splitCommaGo (c :: acc) cs

/-- Splitter for re.split on comma-then-whitespace: skipping the whitespace after a comma. -/
def splitCommaSkip : List Char → List (List Char)
  | [] => [[]]
  | c :: cs =>
    if pyIsSpace c then splitCommaSkip cs
    else if c = ',' then [] :: splitCommaSkip cs
    else splitCommaGo [c] cs

end

/-- re.split on the pattern comma followed by optional whitespace, as strings. -/
def splitCommaWs (s : String) : List String :=
  (splitCommaGo [] s.data).map (fun l => ⟨l⟩)

/-- Decimal value of a list of digit characters. -/
def digitsToNat (l : List Char) : Nat :=
  l.foldl (fun a c => a * 10 + (c.toNat - 48)) 0

/-- Attempted match of the pattern trsvg-digits at the head of the list,
returning the numeric group. -/
def trsvgAt (l : List Char) : Option Nat :=
  match l with
  | 't' :: 'r' :: 's' :: 'v' :: 'g' :: rest =>
    let ds := rest.takeWhile (fun c => c.isDigit)
    if ds.isEmpty then none else some (digitsToNat ds)
  | _ => none

/-- re.search for the pattern trsvg-digits: first match anywhere in the string. -/
def trsvgSearch : List Char → Option Nat
  | [] => none
  | c :: cs =>
    match trsvgAt (c :: cs) with
    | some n => some n
    | none => trsvgSearch cs

/-- re.match anchored on both sides for trsvg-digits: the whole string is
trsvg followed by one or more digits. -/
def trsvgExact (l : List Char) : Option Nat :=
  match l with
  | 't' :: 'r' :: 's' :: 'v' :: 'g' :: rest =>
    if !rest.isEmpty && rest.all (fun c => c.isDigit) then some (digitsToNat rest) else none
  | _ => none

/-- re.search for a dollar sign directly followed by a digit. -/
def containsDollarNum : List Char → Bool
  | [] => false
  | [_] => false
  | c :: c2 :: cs => (c = '$' && c2.isDigit) || containsDollarNum (c2 :: cs)

mutual

/-- Matcher for the entity-reference pattern: at the start of one group,
an ampersand followed by at least one character other than a semicolon. -/
def entitySeq1 : List Char → Bool
  | '&' :: c :: cs => if c = ';' then false else entityBody cs
  | _ => false

/-- Matcher for the entity-reference pattern: inside the non-semicolon run of a group. -/
def entityBody : List Char → Bool
  | [] => false
  | ';' :: cs => cs.isEmpty || entitySeq1 cs
  | _ :: cs => entityBody cs

end

/-- re.match of an anchored pattern: the dollar anchor also matches just
before a single trailing newline. -/
def matchWithNL (f : List Char → Bool) (l : List Char) : Bool :=
  f l || (l.getLast? = some '\n' && f l.dropLast)

mutual

/-- Matcher for the simple-css pattern: consuming selector characters,
the Bool records whether at least one was consumed. -/
def cssAfterSel (seen : Bool) : List Char → Bool
  | [] => seen
  | '{' :: cs => seen && cssBody cs
  | _ :: cs => cssAfterSel true cs

/-- Matcher for the simple-css pattern: inside a declaration block. -/
def cssBody : List Char → Bool
  | [] => false
  | '}' :: cs => cssAfterSel false cs
  | _ :: cs => cssBody cs

end

/-- Full match of the simple-css pattern: alternating selector and
brace-block segments ending in a non-empty selector segment. -/
def cssSimpleB (l : List Char) : Bool :=
  cssAfterSel false l

/-- Remainder of the list after the first closing brace. -/
def afterClose : List Char → List Char
  | [] => []
  | c :: cs => if c = '}' then cs else afterClose cs

theorem afterClose_length_le : (l : List Char) → (afterClose l).length ≤ l.length
  | [] => Nat.le_refl _
  | c :: cs => by
    simp only [afterClose]
    split
    · simp
    · exact Nat.le_succ_of_le (afterClose_length_le cs)

/-- re.split removing each brace block: the pieces left over are the selector portions. -/
def cssSelParts (acc : List Char) : List Char → List (List Char)
  | [] => [acc.reverse]
  | '{' :: cs =>
    if cs.contains '}' then
      acc.reverse :: cssSelParts [] (afterClose cs)
    else
      [acc.reverse ++ '{' :: cs]
  | c :: cs => cssSelParts (c :: acc) cs
termination_by l => l.length
decreasing_by
  all_goals simp_wf
  all_goals exact Nat.lt_succ_of_le (afterClose_length_le cs)

/-- Decimal digit character for a value below ten. -/
def digitChar (n : Nat) : Char :=
  Char.ofNat (48 + n)

/-- Decimal representation, fuel-driven so that it reduces in the kernel. -/
def natStrAux : Nat → Nat → List Char
  | 0, _ => []
  | fuel + 1, n => if n < 10 then [digitChar n] else natStrAux fuel (n / 10) ++ [digitChar (n % 10)]

/-- Decimal representation of a natural number as a string. -/
def natStr (n : Nat) : String :=
  ⟨natStrAux (n + 1) n⟩

/-! ## Ordered association lists, modelling Python dict contents -/

/-- Python dict lookup. -/
def alookup {κ α : Type} [BEq κ] : List (κ × α) → κ → Option α
  | [], _ => none
  | p :: rest, k => if p.1 == k then some p.2 else alookup rest k

/-- Python dict assignment: overwrite in place, else append. -/
def kvset {κ α : Type} [BEq κ] : List (κ × α) → κ → α → List (κ × α)
  | [], k, v => [(k, v)]
  | p :: rest, k, v => if p.1 == k then (k, v) :: rest else p :: kvset rest k v

/-- Python dict.setdefault. -/
def kvsetdefault {κ α : Type} [BEq κ] (l : List (κ × α)) (k : κ) (v : α) : List (κ × α) :=
  if (alookup l k).isSome then l else l ++ [(k, v)]

/-- Python dict.update: fold the assignments of the second dict into the first. -/
def kvupdate {κ α : Type} [BEq κ] (l m : List (κ × α)) : List (κ × α) :=
  m.foldl (fun acc p => kvset acc p.1 p.2) l

/-! ## The element tree -/

/-- An lxml element: expanded tag, ordered attributes, text before the first
child, element children, and tail text following the element. -/
inductive Elem where
  | mk (tag : String) (attrs : List (String × String)) (text : Option String)
      (children : List Elem) (tail : Option String)

/-- Attribute list of an element. -/
abbrev Attrs := List (String × String)

def Elem.tag : Elem → String
  | .mk t _ _ _ _ => t

def Elem.attrs : Elem → Attrs
  | .mk _ a _ _ _ => a

def Elem.text : Elem → Option String
  | .mk _ _ x _ _ => x

def Elem.children : Elem → List Elem
  | .mk _ _ _ cs _ => cs

def Elem.tail : Elem → Option String
  | .mk _ _ _ _ tl => tl

/-- element.get(key). -/
def Elem.getAttr (e : Elem) (k : String) : Option String :=
  alookup e.attrs k

/-- element.set(key, value). -/
def Elem.setAttr : Elem → String → String → Elem
  | .mk t a x cs tl, k, v => .mk t (kvset a k v) x cs tl

/-- element.attrib.pop(key, None): attribute dictionaries hold each key at
most once, so dropping every pair with the key models the pop. -/
def adel (a : Attrs) (k : String) : Attrs :=
  a.filter (fun p => !(p.1 == k))

def Elem.withChildren : Elem → List Elem → Elem
  | .mk t a x _ tl, cs => .mk t a x cs tl

def Elem.withTail : Elem → Option String → Elem
  | .mk t a x cs _, tl => .mk t a x cs tl

mutual

/-- Structural equality test for elements. -/
def elemEq : Elem → Elem → Bool
  | .mk t1 a1 x1 c1 l1, .mk t2 a2 x2 c2 l2 =>
    t1 == t2 && a1 == a2 && x1 == x2 && elemEqL c1 c2 && l1 == l2

/-- Structural equality test for lists of elements. -/
def elemEqL : List Elem → List Elem → Bool
  | [], [] => true
  | c :: cs, d :: ds => elemEq c d && elemEqL cs ds
  | _, _ => false

end

mutual

theorem elemEq_iff : (e f : Elem) → (elemEq e f = true ↔ e = f)
  | .mk t a x c l, .mk t2 a2 x2 c2 l2 => by
    simp only [elemEq, Bool.and_eq_true, beq_iff_eq, Elem.mk.injEq]
    rw [elemEqL_iff c c2]
    tauto

theorem elemEqL_iff : (cs ds : List Elem) → (elemEqL cs ds = true ↔ cs = ds)
  | [], [] => by simp [elemEqL]
  | [], _ :: _ => by simp [elemEqL]
  | _ :: _, [] => by simp [elemEqL]
  | c :: cs, d :: ds => by
    simp only [elemEqL, Bool.and_eq_true, List.cons.injEq]
    rw [elemEq_iff c d, elemEqL_iff cs ds]

end

instance : DecidableEq Elem := fun e f =>
  decidable_of_iff (elemEq e f = true) (elemEq_iff e f)

/-- A parsed document: the default namespace declared on the root (from
root.nsmap) together with the root element. -/
structure Doc where
  defaultNs : Option String
  root : Elem
deriving DecidableEq

instance {ε α : Type} [DecidableEq ε] [DecidableEq α] : DecidableEq (Except ε α) := fun a b =>
  match a, b with
  | .error e, .error f =>
    if h : e = f then .isTrue (by rw [h]) else .isFalse (by simp [h])
  | .ok x, .ok y =>
    if h : x = y then .isTrue (by rw [h]) else .isFalse (by simp [h])
  | .error _, .ok _ => .isFalse (by simp)
  | .ok _, .error _ => .isFalse (by simp)

/-! ## Namespace constants -/

def SVG_NS : String := "http://www.w3.org/2000/svg"

def XMLNS_ATTR : String := "\x7bhttp://www.w3.org/2000/xmlns/\x7dxmlns"

/-- Expanded tag in a namespace, the lxml brace convention. -/
def nsTag (ns name : String) : String :=
  "\x7b" ++ ns ++ "\x7d" ++ name

def svgText : String := nsTag SVG_NS "text"
def svgTspan : String := nsTag SVG_NS "tspan"
def svgSwitch : String := nsTag SVG_NS "switch"
def svgStyle : String := nsTag SVG_NS "style"
def svgTref : String := nsTag SVG_NS "tref"

/-! ## Document traversal, modelling findall over descendants -/

mutual

/-- All proper descendants of an element in document order. -/
def subElems : Elem → List Elem
  | .mk _ _ _ cs _ => subElemsL cs

/-- All elements of the list together with their descendants, in document order. -/
def subElemsL : List Elem → List Elem
  | [] => []
  | c :: cs => c :: (subElems c ++ subElemsL cs)

end

/-- findall with a descendant path on the root: matching proper descendants
in document order. -/
def findAll (p : Elem → Bool) (e : Elem) : List Elem :=
  (subElems e).filter p

/-! ## normalize_lang -/

/-- Separator class of the language-normalizer split: underscore or whitespace. -/
def isLangSep (c : Char) : Bool :=
  c = '_' || pyIsSpace c

/-- Embedding of preparation.normalize_lang: split the stripped tag on runs of
underscore or whitespace, lower-case the first piece, upper-case two-letter
later pieces, title-case the rest, and rejoin with hyphens. -/
def normalize_lang (lang : String) : String :=
  if lang.isEmpty then lang
  else
    match splitRuns isLangSep (pyStrip lang).data with
    | [] => ""
    | p :: rest =>
      let primary := pyLower ⟨p⟩
      if rest.isEmpty then primary
      else
        let pieces := rest.map (fun q =>
          if q.length = 2 then pyUpper ⟨q⟩ else pyTitle ⟨q⟩)
        primary ++ "-" ++ String.intercalate "-" pieces

/-! ## reorder_texts -/

/-- Lexicographic strict comparison of character lists, Python string ordering. -/
def charListLt : List Char → List Char → Bool
  | [], [] => false
  | [], _ :: _ => true
  | _ :: _, [] => false
  | c :: cs, d :: ds => c < d || (c == d && charListLt cs ds)

/-- Python tuple comparison for the three-part sort key. -/
def keyLt (a b : Nat × Nat × String) : Bool :=
  a.1 < b.1 ||
    (a.1 == b.1 && (a.2.1 < b.2.1 ||
      (a.2.1 == b.2.1 && charListLt a.2.2.data b.2.2.data)))

/-- Tags that count as a text element inside reorder_texts: namespaced or bare. -/
def isTextTag (t : String) : Bool :=
  t == svgText || t == "text"

/-- Embedding of the sort_key closure of reorder_texts: fallback flag first
(zero when there is no truthy systemLanguage), then the number found by
searching the id for trsvg-digits (a large sentinel when absent), then the tag. -/
def sort_key (e : Elem) : Nat × Nat × String :=
  let lang := match e.getAttr "systemLanguage" with
    | some v => if v.isEmpty then "fallback" else v
    | none => "fallback"
  let num := match trsvgSearch ((e.getAttr "id").getD "").data with
    | some n => n
    | none => 10 ^ 9
  ((if lang == "fallback" then 0 else 1), num, lang)

/-- Stable insertion of an element after every earlier element that does not
strictly exceed it, matching Python sorted stability. -/
def insertByKey {α : Type} (lt : α → α → Bool) (x : α) : List α → List α
  | [] => [x]
  | y :: ys => if lt x y then x :: y :: ys else y :: insertByKey lt x ys

/-- Stable sort by a strict comparison, matching Python sorted. -/
def sortByKey {α : Type} (lt : α → α → Bool) (l : List α) : List α :=
  l.foldl (fun acc x => insertByKey lt x acc) []

/-- One switch inside reorder_texts: text children are removed and re-appended
in sorted order, leaving other children in place before them. -/
def reorderSwitchChildren (cs : List Elem) : List Elem :=
  cs.filter (fun c => !isTextTag c.tag) ++
    sortByKey (fun c d => keyLt (sort_key c) (sort_key d)) (cs.filter (fun c => isTextTag c.tag))

mutual

/-- reorder_texts on one subtree: every namespaced switch has its text
children re-appended in sorted order. -/
def reorderElem : Elem → Elem
  | .mk t a x cs tl =>
    let cs1 := reorderL cs
    .mk t a x (if t == svgSwitch then reorderSwitchChildren cs1 else cs1) tl

/-- reorder_texts over a list of subtrees. -/
def reorderL : List Elem → List Elem
  | [] => []
  | c :: cs => reorderElem c :: reorderL cs

end

/-- Embedding of preparation.reorder_texts: findall visits proper descendants
only, so the root's own children are not sorted even when the root is a switch. -/
def reorder_texts (root : Elem) : Elem :=
  root.withChildren (reorderL root.children)

/-! ## make_translation_ready -/

/-- Error codes of SvgStructureException raised by make_translation_ready. -/
inductive Err where
  | noDocElement
  | cssTooComplex
  | cssHasIds
  | containsTref
  | nestedTspans
  | invalidNodeId
  | textContainsDollar
  | nonTspanInsideText
  | switchTextOutside
  | switchChildNotText
  | multipleLangInText
  | multipleTextSameLang
deriving DecidableEq

mutual

/-- Embedding of preparation.get_text_content, the concatenation produced by
itertext: own text, then each child's content followed by its tail. -/
def get_text_content : Elem → String
  | .mk _ _ x cs _ => x.getD "" ++ textContentL cs

/-- Concatenated text content of a list of children including their tails. -/
def textContentL : List Elem → String
  | [] => ""
  | c :: cs => get_text_content c ++ (c.tail.getD "") ++ textContentL cs

end

/-- Namespace-sanity pass: when the root declares no default namespace, or the
declared one matches the entity-reference pattern, the code sets the xmlns
attribute on the root. The nsmap of the parsed document is not changed by
that set call, so defaultNs is left as parsed. -/
def nsFix (d : Doc) : Doc :=
  match d.defaultNs with
  | none => ⟨d.defaultNs, d.root.setAttr XMLNS_ATTR SVG_NS⟩
  | some ns =>
    if matchWithNL entitySeq1 ns.data then ⟨d.defaultNs, d.root.setAttr XMLNS_ATTR SVG_NS⟩
    else d

/-- Style-safety check for one style element's css text. -/
def checkStyle1 (s : Elem) : Except Err Unit :=
  let css := (s.text.getD "").data
  if css.contains '#' then
    if !(matchWithNL cssSimpleB css) then .error .cssTooComplex
    else if (cssSelParts [] css).any (fun sel => sel.contains '#') then .error .cssHasIds
    else .ok ()
  else .ok ()

/-- Style-safety pass over every namespaced style element. -/
def checkStyles (root : Elem) : Except Err Unit :=
  (findAll (fun e => e.tag == svgStyle) root).foldl
    (fun acc s =>
      match acc with
      | .error e => .error e
      | .ok _ => checkStyle1 s) (.ok ())

/-- Legacy-reference rejection: any namespaced tref element is an error. -/
def checkTrefs (root : Elem) : Except Err Unit :=
  if (findAll (fun e => e.tag == svgTref) root).isEmpty then .ok ()
  else .error .containsTref

/-- Span leaf check: a namespaced tspan with element children is an error. -/
def checkNestedTspans (root : Elem) : Except Err Unit :=
  if (findAll (fun e => e.tag == svgTspan) root).all (fun sp => sp.children.isEmpty)
  then .ok () else .error .nestedTspans

/-- A fresh tspan element wrapping stray text, as created by etree.Element. -/
def newTspan (s : String) : Elem :=
  .mk svgTspan [] (some s) [] none

/-- Raw-text wrapping of one child: a tail with non-whitespace content is
moved into a fresh tspan inserted directly after the child. -/
def wrapTail (c : Elem) : List Elem :=
  match c.tail with
  | some s => if (pyStrip s).isEmpty then [c] else [c.withTail none, newTspan s]
  | none => [c]

mutual

/-- Raw-text wrapping pass on one subtree: every namespaced text element has
leading raw text and child tails wrapped into fresh tspans. -/
def wrapElem : Elem → Elem
  | .mk t a x cs tl =>
    let cs1 := wrapL cs
    if t == svgText then
      match x with
      | some s =>
        if (pyStrip s).isEmpty then .mk t a x (cs1.flatMap wrapTail) tl
        else .mk t a none ((newTspan s :: cs1).flatMap wrapTail) tl
      | none => .mk t a none (cs1.flatMap wrapTail) tl
    else .mk t a x cs1 tl

/-- Raw-text wrapping pass over a list of subtrees. -/
def wrapL : List Elem → List Elem
  | [] => []
  | c :: cs => wrapElem c :: wrapL cs

end

/-- Raw-text wrapping from the root: findall visits proper descendants only. -/
def wrapRoot (r : Elem) : Elem :=
  r.withChildren (wrapL r.children)

/-- Id cleaning for one node's attribute list: trim the id, reject a pipe or
slash, record a reserved trsvg number into the running maximum, and strip a
purely numeric id. -/
def cleanAttrs (m : Nat) (a : Attrs) : Except Err (Nat × Attrs) :=
  match alookup a "id" with
  | none => .ok (m, a)
  | some id0 =>
    let idT := pyStrip id0
    if idT.data.contains '|' || idT.data.contains '/' then .error .invalidNodeId
    else
      let m1 := match trsvgExact idT.data with
        | some n => Nat.max m n
        | none => m
      if pyIsDigitStr idT then .ok (m1, adel (kvset a "id" idT) "id")
      else .ok (m1, kvset a "id" idT)

/-- Emptiness test used by the id-cleaning pass: no element children and no
non-whitespace own text. -/
def isEmptyNode (cs : List Elem) (x : Option String) : Bool :=
  cs.isEmpty && (match x with
    | some s => (pyStrip s).isEmpty
    | none => true)

mutual

/-- Id cleaning and empty-node pruning on one subtree for the given tag: a
matching node has its attributes cleaned and is dropped when empty, with the
decision taken before its own subtree is processed, matching the document
order of the Python loop. -/
def cleanElem (tg : String) (m : Nat) : Elem → Except Err (Nat × Option Elem)
  | .mk t a x cs tl =>
    if t == tg then
      match cleanAttrs m a with
      | .error e => .error e
      | .ok (m1, a1) =>
        if isEmptyNode cs x then .ok (m1, none)
        else
          match cleanL tg m1 cs with
          | .error e => .error e
          | .ok (m2, cs1) => .ok (m2, some (.mk t a1 x cs1 tl))
    else
      match cleanL tg m cs with
      | .error e => .error e
      | .ok (m2, cs1) => .ok (m2, some (.mk t a x cs1 tl))

/-- Id cleaning over a list of subtrees, threading the running maximum. -/
def cleanL (tg : String) (m : Nat) : List Elem → Except Err (Nat × List Elem)
  | [] => .ok (m, [])
  | c :: rest =>
    match cleanElem tg m c with
    | .error e => .error e
    | .ok (m1, oc) =>
      match cleanL tg m1 rest with
      | .error e => .error e
      | .ok (m2, rest1) =>
        .ok (m2, match oc with
          | none => rest1
          | some c1 => c1 :: rest1)

end

/-- Id cleaning from the root for one tag, proper descendants only. -/
def cleanRoot (tg : String) (m : Nat) (r : Elem) : Except Err (Nat × Elem) :=
  match cleanL tg m r.children with
  | .error e => .error e
  | .ok (m1, cs1) => .ok (m1, r.withChildren cs1)

/-- Reserved id string for a number, the f-string trsvg braces new id. -/
def trsvgStr (n : Nat) : String :=
  "trsvg" ++ natStr n

mutual

/-- Id assignment on one subtree: a node of the given tag with no id receives
the next reserved id, the counter increasing through the traversal. -/
def assignElem (tg : String) (m : Nat) : Elem → Nat × Elem
  | .mk t a x cs tl =>
    let p := if t == tg && (alookup a "id").isNone
      then (m + 1, kvset a "id" (trsvgStr (m + 1))) else (m, a)
    let q := assignL tg p.1 cs
    (q.1, .mk t p.2 x q.2 tl)

/-- Id assignment over a list of subtrees, threading the counter. -/
def assignL (tg : String) (m : Nat) : List Elem → Nat × List Elem
  | [] => (m, [])
  | c :: rest =>
    let p := assignElem tg m c
    let q := assignL tg p.1 rest
    (q.1, p.2 :: q.2)

end

/-- Id assignment from the root for one tag, proper descendants only. -/
def assignRoot (tg : String) (m : Nat) (r : Elem) : Nat × Elem :=
  let p := assignL tg m r.children
  (p.1, r.withChildren p.2)

/-- Truthy attribute read: a missing or empty attribute yields none. -/
def truthyAttr (a : Attrs) (k : String) : Option String :=
  match alookup a k with
  | some v => if v.isEmpty then none else some v
  | none => none

/-- Tags accepted as a switch parent in the second text pass: namespaced or bare. -/
def isSwitchTag (t : String) : Bool :=
  t == svgSwitch || t == "switch"

mutual

/-- Second text pass on one subtree, applied through prepChildren. -/
def prepElem : Elem → Except Err Elem
  | .mk t a x cs tl =>
    match prepChildren t a cs with
    | .error e => .error e
    | .ok (a1, cs1) => .ok (.mk t a1 x cs1 tl)

/-- Second text pass over the children of a node: for each namespaced text
child in order, the dollar-placeholder check, systemLanguage normalization,
switch wrapping when the parent is not a switch, style hoisting onto the
switch parent, and the tspan-only child check. -/
def prepChildren (ptag : String) (pattrs : Attrs) : List Elem → Except Err (Attrs × List Elem)
  | [] => .ok (pattrs, [])
  | c :: rest =>
    if c.tag == svgText then
      if containsDollarNum (get_text_content c).data then .error .textContainsDollar
      else
        let c1 := match truthyAttr c.attrs "systemLanguage" with
          | some v => c.setAttr "systemLanguage" (normalize_lang v)
          | none => c
        if c1.children.all (fun ch => ch.tag == svgTspan || ch.tag == "tspan") then
          if isSwitchTag ptag then
            let pattrs1 := match truthyAttr c1.attrs "style" with
              | some v => kvset pattrs "style" v
              | none => pattrs
            match prepChildren ptag pattrs1 rest with
            | .error e => .error e
            | .ok (pattrs2, rest1) => .ok (pattrs2, c1 :: rest1)
          else
            let sw0 : Elem := .mk svgSwitch [] none [c1] none
            let sw1 := match truthyAttr c1.attrs "style" with
              | some v => sw0.setAttr "style" v
              | none => sw0
            match prepChildren ptag pattrs rest with
            | .error e => .error e
            | .ok (pattrs2, rest1) => .ok (pattrs2, sw1 :: rest1)
        else .error .nonTspanInsideText
    else
      match prepElem c with
      | .error e => .error e
      | .ok c1 =>
        match prepChildren ptag pattrs rest with
        | .error e => .error e
        | .ok (pattrs1, rest1) => .ok (pattrs1, c1 :: rest1)

end

/-- Second text pass from the root: the root itself can receive a hoisted
style when it is a switch parent of a text. -/
def prepRoot (r : Elem) : Except Err Elem :=
  prepElem r

/-- Tags accepted as a text child inside the switch pass: namespaced or bare. -/
def isTextChildTag (t : String) : Bool :=
  t == svgText || t == "text"

/-- Duplicate test over a list of strings. -/
def hasDupB : List String → Bool
  | [] => false
  | x :: xs => xs.contains x || hasDupB xs

/-- The unsplit tag value the switch pass reads from a child: the truthy
systemLanguage attribute, or the fallback pseudo-tag. -/
def tagOfChild (c : Elem) : String :=
  (truthyAttr c.attrs "systemLanguage").getD "fallback"

mutual

/-- Switch pass on one subtree: every namespaced switch has its children
validated and multi-tag text children expanded. -/
def expandElem : Elem → Except Err Elem
  | .mk t a x cs tl =>
    if t == svgSwitch then
      match expandChildren [] cs with
      | .error e => .error e
      | .ok (kept, clones) => .ok (.mk t a x (kept ++ clones) tl)
    else
      match expandL cs with
      | .error e => .error e
      | .ok cs1 => .ok (.mk t a x cs1 tl)

/-- Switch pass over a list of subtrees. -/
def expandL : List Elem → Except Err (List Elem)
  | [] => .ok []
  | c :: cs =>
    match expandElem c with
    | .error e => .error e
    | .ok c1 =>
      match expandL cs with
      | .error e => .error e
      | .ok cs1 => .ok (c1 :: cs1)

/-- Children loop of the switch pass: the accumulator carries the unsplit
tags already seen. For each text child: the whole-tag duplicate check, the
within-list duplicate check after the comma split, and for a multi-tag child
one clone per listed tag appended at the end while the original is dropped. -/
def expandChildren (langs : List String) : List Elem → Except Err (List Elem × List Elem)
  | [] => .ok ([], [])
  | c :: rest =>
    if isTextChildTag c.tag then
      let textLang := tagOfChild c
      if langs.contains textLang then .error .multipleTextSameLang
      else
        let realLangs := splitCommaWs textLang
        if hasDupB realLangs then .error .multipleLangInText
        else if realLangs.length == 1 then
          match expandElem c with
          | .error e => .error e
          | .ok c1 =>
            match expandChildren (langs ++ [textLang]) rest with
            | .error e => .error e
            | .ok (kept, clones) => .ok (c1 :: kept, clones)
        else
          match expandChildren (langs ++ [textLang]) rest with
          | .error e => .error e
          | .ok (kept, clones) =>
            .ok (kept, realLangs.map (fun rl => c.setAttr "systemLanguage" rl) ++ clones)
    else .error .switchChildNotText

end

/-- Switch pass from the root, proper descendants only. -/
def expandRoot (r : Elem) : Except Err Elem :=
  match expandL r.children with
  | .error e => .error e
  | .ok cs1 => .ok (r.withChildren cs1)

/-- Embedding of preparation.make_translation_ready on a parsed document.
The Bool in the result records whether the full pipeline ran: it is false on
the early return taken when the document has no namespaced text element. -/
def make_translation_ready (d : Doc) : Except Err (Doc × Bool) :=
  if (findAll (fun e => e.tag == svgText) (nsFix d).root).isEmpty then .ok (nsFix d, false)
  else
    match checkStyles (nsFix d).root with
    | .error e => .error e
    | .ok _ =>
      match checkTrefs (nsFix d).root with
      | .error e => .error e
      | .ok _ =>
        match checkNestedTspans (nsFix d).root with
        | .error e => .error e
        | .ok _ =>
          match cleanRoot svgTspan 0 (wrapRoot (nsFix d).root) with
          | .error e => .error e
          | .ok (m1, r3) =>
            match cleanRoot svgText m1 r3 with
            | .error e => .error e
            | .ok (m2, r4) =>
              match prepRoot (assignRoot svgText (assignRoot svgTspan m2 r4).1
                  (assignRoot svgTspan m2 r4).2).2 with
              | .error e => .error e
              | .ok r7 =>
                match expandRoot r7 with
                | .error e => .error e
                | .ok r8 => .ok (⟨(nsFix d).defaultNs, reorder_texts r8⟩, true)

/-- Embedding of make_translation_ready together with its write-back effect:
the first component is what the call returns or raises, the second is the
content written to the file, none when the file is left untouched. The
tree.write call sits after every pass and is also skipped by the early
return, so only a full successful run writes. -/
def makeTranslationReadyFile (d : Doc) (writeBack : Bool) :
    Except Err Doc × Option Doc :=
  match make_translation_ready d with
  | .error e => (.error e, none)
  | .ok (d1, full) => (.ok d1, if writeBack && full then some d1 else none)

/-! ## extract -/

/-- Modelled from the spec: normalize_text lives in CopySvgTranslate.text_utils,
a module not among the provided sources. Spec section 4.3 defines the
normalization as collapsing every run of whitespace, including newlines and
tabs, to one space and trimming both ends; the repository tests additionally
fix that a true case-insensitive flag lower-cases the result. The flag default
of the missing source is not observable here, so call sites that omit it in
the Python code pass false explicitly below. -/
def normalize_text (s : String) (caseInsensitive : Bool) : String :=
  let joined := String.intercalate " "
    ((splitRuns pyIsSpace s.data).filterMap
      (fun w => if w.isEmpty then none else some (⟨w⟩ : String)))
  if caseInsensitive then pyLower joined else joined

/-- The runtime error the extractor can raise: splitting a missing id raises
AttributeError on None. -/
inductive PyErr where
  | attributeError
deriving DecidableEq

/-- The default_tspans_by_id table: tspan id, possibly missing, to stripped text. -/
abbrev Dtbi := List (Option String × String)

/-- A per-language map of translated strings. -/
abbrev LangMap := List (String × String)

/-- The new-style mapping without its special default_tspans_by_id entry. -/
abbrev NewMap := List (String × LangMap)

/-- One old-way entry: the underscore-texts list and the underscore-translations map. -/
abbrev OldWayEntry := List String × List (String × List String)

/-- The old-way mapping. -/
abbrev OldWay := List (String × OldWayEntry)

/-- Mutable state threaded through the switch loop of extract. -/
structure ExtractAcc where
  dtbi : Dtbi
  news : NewMap
  oldWay : OldWay
deriving DecidableEq

/-- The new entry of the returned dictionary after the final pops: absent when
empty, otherwise the optional default_tspans_by_id table and the remaining keys. -/
inductive NewField where
  | absent
  | present (dtbi : Option Dtbi) (entries : NewMap)
deriving DecidableEq

/-- The dictionary returned by extract. -/
structure ExtractResult where
  newField : NewField
  old_way : OldWay
  title : NewMap
deriving DecidableEq

/-- Direct namespaced tspan children, the child tspan xpath. -/
def tspanChildren (t : Elem) : List Elem :=
  t.children.filter (fun c => c.tag == svgTspan)

/-- Text contents of one text element: stripped tspan texts when tspans are
present, else the stripped own text, else one empty string. -/
def textContentsOf (t : Elem) : List String :=
  let tspans := tspanChildren t
  if tspans.isEmpty then
    match t.text with
    | some s => if s.isEmpty then [""] else [pyStrip s]
    | none => [""]
  else
    tspans.map (fun sp => match sp.text with
      | some s => if s.isEmpty then "" else pyStrip s
      | none => "")

/-- First extract loop, one untagged text element: update the global
default_tspans_by_id table, re-bind default_texts, and setdefault a key for
each normalized default text. -/
def procUntagged (ci : Bool) (st : Dtbi × NewMap × List String) (t : Elem) :
    Dtbi × NewMap × List String :=
  let tspans := tspanChildren t
  let contents := textContentsOf t
  let dtbi1 :=
    if tspans.isEmpty then st.1
    else (tspans.filterMap (fun sp => match sp.text with
        | some s => if s.isEmpty then none else some (alookup sp.attrs "id", pyStrip s)
        | none => none)).foldl (fun acc p => kvset acc p.1 p.2) st.1
  let defaultTexts := contents.map (fun s => normalize_text s ci)
  let news1 := defaultTexts.foldl (fun acc txt =>
      kvsetdefault acc (if ci then pyLower txt else txt) ([] : LangMap)) st.2.1
  (dtbi1, news1, defaultTexts)

/-- Python string head of split on the first dash. -/
def dashHead (s : String) : String :=
  ⟨s.data.takeWhile (fun c => c ≠ '-')⟩

/-- Python or over optional strings with empty-string falsiness. -/
def pyOrStr (a b : Option String) : Option String :=
  match a with
  | some s => if s.isEmpty then (match b with
      | some u => if u.isEmpty then none else some u
      | none => none) else some s
  | none => match b with
      | some u => if u.isEmpty then none else some u
      | none => none

/-- Inner store step of the second extract loop for one resolved base id. -/
def storeStep (dtbi : Dtbi) (lang : String) (news : NewMap) (baseId nt : String) : NewMap :=
  match pyOrStr (alookup dtbi (some baseId)) (alookup dtbi (some (pyLower baseId))) with
  | none => news
  | some etxt =>
    let storeKey := if (alookup news etxt).isSome then etxt else pyLower etxt
    match alookup news storeKey with
    | some m => kvset news storeKey (kvset m lang nt)
    | none => news

/-- Second extract loop, one tagged text element: record the per-language text
list and store each tspan text under the english text resolved through the
global default_tspans_by_id table by the dash-suffix id convention. -/
def procTagged (st : NewMap × List (String × List String)) (dtbi : Dtbi)
    (t : Elem) (lang : String) : Except PyErr (NewMap × List (String × List String)) :=
  match (textContentsOf t).foldlM (fun news text =>
      match alookup (if (tspanChildren t).isEmpty then []
        else ((tspanChildren t).filterMap (fun sp => match sp.text with
            | some s => if s.isEmpty then none else some (pyStrip s, alookup sp.attrs "id")
            | none => none)).foldl (fun acc p => kvset acc p.1 p.2) [])
        (pyStrip text) with
      | none => Except.ok (storeStep dtbi lang news "" (normalize_text text false))
      | some none => Except.error PyErr.attributeError
      | some (some idv) =>
        Except.ok (storeStep dtbi lang news (pyStrip (dashHead idv)) (normalize_text text false)))
    st.1 with
  | .error e => .error e
  | .ok news1 =>
    .ok (news1, kvset st.2 lang ((textContentsOf t).map (fun s => normalize_text s false)))

/-- Update of one old-way entry with the switch translations of one switch. -/
def updateOldWay (ow : OldWay) (dk : String) (swT : List (String × List String)) : OldWay :=
  match alookup ow dk with
  | none => ow
  | some entry => kvset ow dk (entry.1, swT.foldl (fun m p => kvset m p.1 p.2) entry.2)

/-- One switch of the extract loop: the untagged pass, the tagged pass, and
the old-way record when both default texts and translations were found. -/
def procSwitch (ci : Bool) (acc : ExtractAcc) (sw : Elem) : Except PyErr ExtractAcc :=
  let textElems := sw.children.filter (fun c => c.tag == svgText)
  if textElems.isEmpty then .ok acc
  else
    let untagged := textElems.filter (fun t => (truthyAttr t.attrs "systemLanguage").isNone)
    let st1 := untagged.foldl (procUntagged ci) (acc.dtbi, acc.news, [])
    let tagged := textElems.filterMap (fun t =>
      match truthyAttr t.attrs "systemLanguage" with
      | some lg => some (t, lg)
      | none => none)
    match tagged.foldlM (fun st p => procTagged st st1.1 p.1 p.2)
        ((st1.2.1, []) : NewMap × List (String × List String)) with
    | .error e => .error e
    | .ok (news2, swT) =>
      let oldWay1 :=
        match st1.2.2, swT with
        | [], _ => acc.oldWay
        | _, [] => acc.oldWay
        | dk :: _, _ =>
          updateOldWay (kvsetdefault acc.oldWay dk (st1.2.2, [])) dk swT
      .ok ⟨st1.1, news2, oldWay1⟩

/-- The switch loop of extract. -/
def extractSwitches (ci : Bool) : ExtractAcc → List Elem → Except PyErr ExtractAcc
  | acc, [] => .ok acc
  | acc, sw :: rest =>
    match procSwitch ci acc sw with
    | .error e => .error e
    | .ok acc1 => extractSwitches ci acc1 rest

/-- Year-generalization loop at the end of extract: every new key ending in
four digits whose values all end in the same four digits contributes a
year-stripped title entry. This in-extract variant does not strip whitespace,
unlike titles.make_title_translations. -/
def titleFromNews (news : NewMap) : NewMap :=
  news.foldl (fun acc p =>
    if p.1 == "default_tspans_by_id" then acc
    else if !p.1.isEmpty && pyIsDigitStr (pyLast4 p.1) then
      let year := pyLast4 p.1
      if p.1 ≠ year &&
          p.2.all (fun lv => pyIsDigitStr (pyLast4 lv.2) && pyLast4 lv.2 == year) then
        kvset acc (pyDropLast4 p.1) (p.2.map (fun lv => (lv.1, pyDropLast4 lv.2)))
      else acc
    else acc) []

/-- Embedding of extractor.extract on a parsed document: the switch query is
an absolute xpath, so the root itself is included when it is a switch. -/
def extract_doc (d : Doc) (ci : Bool) : Except PyErr ExtractResult :=
  let switches := (d.root :: subElems d.root).filter (fun e => e.tag == svgSwitch)
  match extractSwitches ci ⟨[], [], []⟩ switches with
  | .error e => .error e
  | .ok acc =>
    let title := titleFromNews acc.news
    let nf : NewField :=
      if acc.dtbi.isEmpty then
        (if acc.news.isEmpty then .absent else .present none acc.news)
      else .present (some acc.dtbi) acc.news
    .ok ⟨nf, acc.oldWay, title⟩

/-- Embedding of extractor.extract including its file-existence guard: the
file system is a finite map from paths to parsed documents, and a missing
path returns none before any parsing or extraction work. -/
def extract (fs : List (String × Doc)) (path : String) (ci : Bool) :
    Option (Except PyErr ExtractResult) :=
  match alookup fs path with
  | none => none
  | some d => some (extract_doc d ci)

/-! ## titles -/

/-- Python or over optional language maps with empty-dict falsiness. -/
def pyOrMap (a b : Option LangMap) : Option LangMap :=
  match a with
  | some m =>
    if m.isEmpty then (match b with
      | some u => if u.isEmpty then none else some u
      | none => none)
    else some m
  | none => match b with
    | some u => if u.isEmpty then none else some u
    | none => none

/-- Embedding of titles.make_title_translations: each key ending in four
digits, with every value ending in the same four digits, is stored under the
stripped year-free key with stripped year-free values. -/
def make_title_translations (new : NewMap) : NewMap :=
  new.foldl (fun acc p =>
    let year := pyLast4 p.1
    if p.1.isEmpty || p.1 == year || !pyIsDigitStr year then acc
    else if p.2.all (fun lv => pyIsDigitStr (pyLast4 lv.2) && pyLast4 lv.2 == year) then
      kvset acc (pyStrip (pyDropLast4 p.1))
        (p.2.map (fun lv => (lv.1, pyStrip (pyDropLast4 lv.2))))
    else acc) []

/-- Embedding of titles.get_titles_translations: each candidate text ending in
four digits is looked up year-free, raw then stripped, and expanded back with
one space before the year. -/
def get_titles_translations (allMap : NewMap) (defaultTexts : List String) : NewMap :=
  defaultTexts.foldl (fun acc text =>
    if pyIsDigitStr (pyLast4 text) then
      let year := pyLast4 text
      let key := pyDropLast4 text
      match pyOrMap (alookup allMap key) (alookup allMap (pyStrip key)) with
      | some m => kvset acc text (m.map (fun lv => (lv.1, lv.2 ++ " " ++ year)))
      | none => acc
    else acc) []

/-! ## Concrete documents used by the theorems -/

instance : Inhabited Elem := ⟨.mk "" [] none [] none⟩

/-- Tag of the svg root element. -/
def svgRootTag : String := nsTag SVG_NS "svg"

/-- An svg document with the given children under the root, default namespace declared. -/
def svgDoc (cs : List Elem) : Doc :=
  ⟨some SVG_NS, .mk svgRootTag [] none cs none⟩

/-- Whether the element is a namespaced text or tspan node. -/
def isTT (e : Elem) : Bool :=
  e.tag == svgText || e.tag == svgTspan

/-- Id sanity for one optional id: free of pipe and slash, with the flag
telling whether a missing id is acceptable. -/
def idFlexB (allowNone : Bool) : Option String → Bool
  | some s => !(s.data.contains '|') && !(s.data.contains '/')
  | none => allowNone

mutual

/-- Id sanity of every node bearing the given tag in one subtree. -/
def tagOkE (tg : String) (w : Bool) : Elem → Bool
  | .mk t a _ cs _ => (!(t == tg) || idFlexB w (alookup a "id")) && tagOkL tg w cs

/-- Id sanity of every node bearing the given tag in a list of subtrees. -/
def tagOkL (tg : String) (w : Bool) : List Elem → Bool
  | [] => true
  | c :: cs => tagOkE tg w c && tagOkL tg w cs

end

mutual

/-- Ids of nodes bearing the given tag, in the traversal order of the
assignment pass. -/
def collectE (tg : String) : Elem → List (Option String)
  | .mk t a _ cs _ => (if t == tg then [alookup a "id"] else []) ++ collectL tg cs

/-- Ids of nodes bearing the given tag over a list of subtrees. -/
def collectL (tg : String) : List Elem → List (Option String)
  | [] => []
  | c :: cs => collectE tg c ++ collectL tg cs

end

/-- What the assignment pass does to a sequence of optional ids: present ids
are kept verbatim, and each missing id receives the next reserved number. -/
def mergeFill (m : Nat) : List (Option String) → List (Option String)
  | [] => []
  | some s :: rest => some s :: mergeFill m rest
  | none :: rest => some (trsvgStr (m + 1)) :: mergeFill (m + 1) rest

/-- The reserved numbers the assignment pass hands out over a sequence of
optional ids. -/
def gapNums (m : Nat) : List (Option String) → List Nat
  | [] => []
  | some _ :: rest => gapNums m rest
  | none :: rest => (m + 1) :: gapNums (m + 1) rest

/-- Id attributes of every text and tspan element below the root, document order. -/
def idsOfTTBelow (r : Elem) : List (Option String) :=
  ((subElems r).filter isTT).map (fun e => e.getAttr "id")

/-- The systemLanguage attributes of the first switch's children. -/
def switchLangs (d : Doc) : List (Option String) :=
  match d.root.children with
  | sw :: _ => sw.children.map (fun t => t.getAttr "systemLanguage")
  | [] => []

/-- Input of the repository test test_reorder_texts_basic: a switch holding
Arabic, French, then the untagged default. -/
def reorderInput : Elem :=
  .mk svgRootTag [] none
    [ .mk svgSwitch [] none
      [ .mk svgText [("id", "trsvg2"), ("systemLanguage", "ar")] (some "Arabic") [] none
      , .mk svgText [("id", "trsvg1"), ("systemLanguage", "fr")] (some "French") [] none
      , .mk svgText [] (some "Default") [] none ] none ] none

/-- The same document with the switch children in the order reorder_texts produces. -/
def reorderOutput : Elem :=
  .mk svgRootTag [] none
    [ .mk svgSwitch [] none
      [ .mk svgText [] (some "Default") [] none
      , .mk svgText [("id", "trsvg1"), ("systemLanguage", "fr")] (some "French") [] none
      , .mk svgText [("id", "trsvg2"), ("systemLanguage", "ar")] (some "Arabic") [] none ] none ] none

/-- One switch, one text with the given systemLanguage, ids already assigned. -/
def docLang (lang : String) : Doc :=
  svgDoc
    [ .mk svgSwitch [] none
      [ .mk svgText [("id", "trsvg2"), ("systemLanguage", lang)] none
        [ .mk svgTspan [("id", "trsvg1")] (some "hello") [] none ] none ] none ]

/-- A document whose text and one tspan share the custom id dup while a second
tspan's id trims to the empty string. -/
def docDupIds : Doc :=
  svgDoc
    [ .mk svgSwitch [] none
      [ .mk svgText [("id", "dup")] none
        [ .mk svgTspan [("id", "dup")] (some "a") [] none
        , .mk svgTspan [("id", " ")] (some "b") [] none ] none ] none ]

/-- The normalized form of docDupIds: the duplicate ids and the empty id survive. -/
def docDupIdsOut : Doc :=
  svgDoc
    [ .mk svgSwitch [] none
      [ .mk svgText [("id", "dup")] none
        [ .mk svgTspan [("id", "dup")] (some "a") [] none
        , .mk svgTspan [("id", "")] (some "b") [] none ] none ] none ]

/-- A switch whose siblings carry the single tag la and the comma list la, en. -/
def docCrossLang : Doc :=
  svgDoc
    [ .mk svgSwitch [] none
      [ .mk svgText [("id", "trsvg2"), ("systemLanguage", "la")] none
        [ .mk svgTspan [("id", "trsvg1")] (some "x") [] none ] none
      , .mk svgText [("id", "trsvg4"), ("systemLanguage", "la, en")] none
        [ .mk svgTspan [("id", "trsvg3")] (some "y") [] none ] none ] none ]

/-- The normalized form of docCrossLang: after expansion and reorder two
sibling texts both carry the tag la, yet normalization succeeded. -/
def docCrossLangOut : Doc :=
  svgDoc
    [ .mk svgSwitch [] none
      [ .mk svgText [("id", "trsvg2"), ("systemLanguage", "la")] none
        [ .mk svgTspan [("id", "trsvg1")] (some "x") [] none ] none
      , .mk svgText [("id", "trsvg4"), ("systemLanguage", "-EN")] none
        [ .mk svgTspan [("id", "trsvg3")] (some "y") [] none ] none
      , .mk svgText [("id", "trsvg4"), ("systemLanguage", "la")] none
        [ .mk svgTspan [("id", "trsvg3")] (some "y") [] none ] none ] none ]

/-- Two switches: the first holds a fallback whose tspan has id trsvg1, the
second holds no fallback at all, only an Arabic text whose tspan id trsvg1-ar
resolves to the first switch's fallback span. -/
def docCrossSwitch : Doc :=
  svgDoc
    [ .mk svgSwitch [] none
      [ .mk svgText [("id", "trsvg2")] none
        [ .mk svgTspan [("id", "trsvg1")] (some "hello") [] none ] none ] none
    , .mk svgSwitch [] none
      [ .mk svgText [("id", "trsvg4-ar"), ("systemLanguage", "ar")] none
        [ .mk svgTspan [("id", "trsvg1-ar")] (some "marhaba") [] none ] none ] none ]

/-- Whether every text child of the element carries a truthy systemLanguage,
so that the switch has no fallback text block. -/
def noFallbackIn (sw : Elem) : Bool :=
  sw.children.all (fun t => !(t.tag == svgText) || (truthyAttr t.attrs "systemLanguage").isSome)

/-- A document with no text element and no default namespace declaration. -/
def docNoNs : Doc :=
  ⟨none, .mk "svg" [] none [ .mk "rect" [] none [] none ] none⟩

/-- What make_translation_ready returns for docNoNs: the xmlns attribute has
been added to the root even though there was nothing to translate. -/
def docNoNsOut : Doc :=
  ⟨none, .mk "svg" [(XMLNS_ATTR, SVG_NS)] none [ .mk "rect" [] none [] none ] none⟩

/-- A document containing a tref element, used to exercise an error path. -/
def docTref : Doc :=
  svgDoc
    [ .mk svgText [] none [ .mk svgTref [("href", "#r")] none [] none ] none ]

/-- Two entries of a translation mapping whose keys year-strip to the same
title key a, with all values ending in their key's year. -/
def titlesCollision : NewMap :=
  [("a 2020", [("la", "x 2020")]), ("a 2019", [("la", "y 2019")])]

/-! ## Claim theorems -/

/-- C1: the claim says the untagged fallback text block is the last text child
of every switch after reorder_texts, as the function's own docstring, the
repository tests and the spec state. The sort key gives the fallback rank
zero, so ascending sorting places it first: on the input of the repository's
own test test_reorder_texts_basic the untagged block comes out first and the
Arabic block last. -/
theorem c1_reorder_places_fallback_first :
    reorder_texts reorderInput = reorderOutput
    ∧ (match reorderOutput.children with
       | sw :: _ => (sw.children.map (fun t => t.getAttr "systemLanguage"))
       | [] => []) = [none, some "fr", some "ar"] := by
  constructor
  · decide
  · decide

/-- C3: the claim says make_translation_ready is idempotent, but a second run
is not the identity on its own output: a systemLanguage of en_us is
normalized to en-US, and running the pipeline again turns that very output
into en-us, so normalize of normalize differs from normalize. -/
theorem c3_normalize_not_idempotent :
    make_translation_ready (docLang "en_us") = .ok (docLang "en-US", true)
    ∧ make_translation_ready (docLang "en-US") = .ok (docLang "en-us", true)
    ∧ docLang "en-us" ≠ docLang "en-US" := by
  refine ⟨by decide, by decide, by decide⟩

/-- C4: the claim says normalize_lang is idempotent with canonical tags such
as en-US as fixed points. The splitter only breaks on underscore and
whitespace, never on the hyphen it itself inserts, so normalize_lang en_us is
en-US while a second application lowers it to en-us; the docstring example
pt-br to pt-BR also fails. -/
theorem c4_normalize_lang_not_idempotent :
    normalize_lang "en_us" = "en-US"
    ∧ normalize_lang (normalize_lang "en_us") = "en-us"
    ∧ normalize_lang (normalize_lang "en_us") ≠ normalize_lang "en_us"
    ∧ normalize_lang "pt-br" = "pt-br"
    ∧ normalize_lang "en-US" ≠ "en-US" := by
  refine ⟨by decide, by decide, by decide, by decide, by decide⟩

/-- C7: whenever make_translation_ready raises, the file on disk is never
rewritten, even with write_back requested: the write is sequenced after every
pass, so an error leaves the written-content component none. -/
theorem c7_error_implies_no_write (d : Doc) (wb : Bool) (e : Err)
    (h : (makeTranslationReadyFile d wb).1 = .error e) :
    (makeTranslationReadyFile d wb).2 = none := by
  unfold makeTranslationReadyFile at h ⊢
  cases hm : make_translation_ready d with
  | error e1 => simp [hm]
  | ok p => rw [hm] at h; simp at h

/-- C7 witness: a document containing a tref errors, and with write_back true
nothing is written. -/
theorem c7_error_implies_no_write_witness :
    (makeTranslationReadyFile docTref true).1 = .error .containsTref
    ∧ (makeTranslationReadyFile docTref true).2 = none :=
  ⟨by decide, c7_error_implies_no_write docTref true .containsTref (by decide)⟩

/-- C10: extract on a path that does not name an existing file returns none,
neither raising nor producing an empty mapping structure. -/
theorem c10_extract_missing_file_none (fs : List (String × Doc)) (path : String)
    (ci : Bool) (h : alookup fs path = none) :
    extract fs path ci = none := by
  unfold extract
  rw [h]

/-- C10 witness: a one-file system and a path outside it. -/
theorem c10_extract_missing_file_none_witness :
    alookup [("a.svg", docTref)] "missing.svg" = none
    ∧ extract [("a.svg", docTref)] "missing.svg" true = none :=
  ⟨by decide, c10_extract_missing_file_none _ _ true (by decide)⟩

theorem natStrAux_chars : ∀ (fuel n : Nat), ∀ c ∈ natStrAux fuel n, ∃ k, k < 10 ∧ c = digitChar k
  | 0, _ => by simp [natStrAux]
  | fuel + 1, n => by
    unfold natStrAux
    by_cases h : n < 10
    · rw [if_pos h]
      intro c hc
      rw [List.mem_singleton] at hc
      exact ⟨n, h, hc⟩
    · rw [if_neg h]
      intro c hc
      rw [List.mem_append] at hc
      rcases hc with hc | hc
      · exact natStrAux_chars fuel (n / 10) c hc
      · rw [List.mem_singleton] at hc
        exact ⟨n % 10, Nat.mod_lt _ (by omega), hc⟩

theorem char_contains_false (l : List Char) (a : Char) (h : a ∉ l) :
    l.contains a = false := by
  cases hc : l.contains a with
  | false => rfl
  | true => exact absurd (List.elem_iff.mp hc) h

theorem trsvgStr_ok (n : Nat) (w : Bool) : idFlexB w (some (trsvgStr n)) = true := by
  have hdata : (trsvgStr n).data = 't' :: 'r' :: 's' :: 'v' :: 'g' :: natStrAux (n + 1) n := rfl
  have hnot : ∀ (a : Char), a = '|' ∨ a = '/' → a ∉ (trsvgStr n).data := by
    intro a ha hmem
    rw [hdata] at hmem
    simp only [List.mem_cons] at hmem
    rcases hmem with h | h | h | h | h | h
    · rcases ha with ha | ha <;> (subst ha; exact absurd h (by decide))
    · rcases ha with ha | ha <;> (subst ha; exact absurd h (by decide))
    · rcases ha with ha | ha <;> (subst ha; exact absurd h (by decide))
    · rcases ha with ha | ha <;> (subst ha; exact absurd h (by decide))
    · rcases ha with ha | ha <;> (subst ha; exact absurd h (by decide))
    · rcases natStrAux_chars (n + 1) n a h with ⟨k, hk, hck⟩
      interval_cases k <;>
        (rcases ha with ha | ha <;> (subst ha; exact absurd hck (by decide)))
  simp only [idFlexB]
  rw [char_contains_false _ '|' (hnot '|' (Or.inl rfl)),
    char_contains_false _ '/' (hnot '/' (Or.inr rfl))]
  rfl

theorem tagOkL_eq_all (tg : String) (w : Bool) :
    ∀ (cs : List Elem), tagOkL tg w cs = cs.all (tagOkE tg w)
  | [] => rfl
  | c :: cs => by
    rw [List.all_cons, ← tagOkL_eq_all tg w cs]
    rfl

theorem tagOkL_append (tg : String) (w : Bool) (l1 l2 : List Elem) :
    tagOkL tg w (l1 ++ l2) = (tagOkL tg w l1 && tagOkL tg w l2) := by
  rw [tagOkL_eq_all, tagOkL_eq_all, tagOkL_eq_all, List.all_append]

theorem mem_insertByKey {α : Type} (lt : α → α → Bool) (x y : α) :
    ∀ (l : List α), y ∈ insertByKey lt x l → y = x ∨ y ∈ l
  | [] => by simp [insertByKey]
  | z :: zs => fun h => by
    unfold insertByKey at h
    split at h
    · rw [List.mem_cons] at h
      rcases h with h | h
      · exact Or.inl h
      · exact Or.inr h
    · rw [List.mem_cons] at h
      rcases h with h | h
      · exact Or.inr (by rw [h]; exact List.mem_cons_self _ _)
      · rcases mem_insertByKey lt x y zs h with h2 | h2
        · exact Or.inl h2
        · exact Or.inr (List.mem_cons_of_mem _ h2)

theorem mem_sortByKey_fold {α : Type} (lt : α → α → Bool) (y : α) :
    ∀ (l acc : List α), y ∈ l.foldl (fun a x => insertByKey lt x a) acc →
      y ∈ acc ∨ y ∈ l
  | [], acc => fun h => Or.inl h
  | x :: xs, acc => fun h => by
    rw [List.foldl_cons] at h
    rcases mem_sortByKey_fold lt y xs (insertByKey lt x acc) h with h2 | h2
    · rcases mem_insertByKey lt x y acc h2 with h3 | h3
      · exact Or.inr (by rw [h3]; exact List.mem_cons_self _ _)
      · exact Or.inl h3
    · exact Or.inr (List.mem_cons_of_mem _ h2)

theorem mem_sortByKey {α : Type} (lt : α → α → Bool) (y : α) (l : List α)
    (h : y ∈ sortByKey lt l) : y ∈ l := by
  rcases mem_sortByKey_fold lt y l [] h with h2 | h2
  · simp at h2
  · exact h2

mutual

theorem tagOkE_forall (tg : String) (w : Bool) : ∀ (e : Elem), tagOkE tg w e = true →
    ∀ x ∈ e :: subElems e, (x.tag == tg) = true → idFlexB w (x.getAttr "id") = true
  | .mk t a xt cs tl => fun h x hx htag => by
    unfold tagOkE at h
    rcases Bool.and_eq_true_iff.mp h with ⟨h1, h2⟩
    rw [List.mem_cons] at hx
    rcases hx with hx | hx
    · subst hx
      unfold Elem.tag at htag
      rw [htag] at h1
      simpa using h1
    · have hx2 : x ∈ subElemsL cs := by
        revert hx
        unfold subElems
        exact id
      exact tagOkL_forall tg w cs h2 x hx2 htag

theorem tagOkL_forall (tg : String) (w : Bool) : ∀ (cs : List Elem), tagOkL tg w cs = true →
    ∀ x ∈ subElemsL cs, (x.tag == tg) = true → idFlexB w (x.getAttr "id") = true
  | [] => fun _ x hx => by simp [subElemsL] at hx
  | c :: cs => fun h x hx htag => by
    unfold tagOkL at h
    rcases Bool.and_eq_true_iff.mp h with ⟨h1, h2⟩
    unfold subElemsL at hx
    rw [List.mem_cons] at hx
    rcases hx with hx | hx
    · exact tagOkE_forall tg w c h1 x (by rw [hx]; exact List.mem_cons_self _ _) htag
    · rw [List.mem_append] at hx
      rcases hx with hx | hx
      · exact tagOkE_forall tg w c h1 x (List.mem_cons_of_mem _ hx) htag
      · exact tagOkL_forall tg w cs h2 x hx htag

end

theorem alookup_kvset_self {α : Type} (l : List (String × α)) (k : String) (v : α) :
    alookup (kvset l k v) k = some v := by
  induction l with
  | nil => simp [kvset, alookup]
  | cons p rest ih =>
    unfold kvset
    by_cases h : p.1 = k
    · simp [h, alookup]
    · have hb : (p.1 == k) = false := by simp [h]
      simp only [hb, Bool.false_eq_true, if_false]
      unfold alookup
      rw [hb]
      simp only [Bool.false_eq_true, if_false]
      exact ih

theorem alookup_kvset_ne {α : Type} (l : List (String × α)) (k k' : String) (v : α)
    (h : k' ≠ k) : alookup (kvset l k v) k' = alookup l k' := by
  induction l with
  | nil =>
    have hb : (k == k') = false := by simp [Ne.symm h]
    simp [kvset, alookup, hb]
  | cons p rest ih =>
    unfold kvset
    by_cases hp : p.1 = k
    · have hb : (p.1 == k) = true := by simp [hp]
      have hb2 : (k == k') = false := by simp [Ne.symm h]
      have hb3 : (p.1 == k') = false := by simp [hp, Ne.symm h]
      simp [hb, alookup, hb2, hb3]
    · have hb : (p.1 == k) = false := by simp [hp]
      simp only [hb, Bool.false_eq_true, if_false]
      unfold alookup
      cases hpk : (p.1 == k') <;> simp [ih]

theorem alookup_adel_self (a : Attrs) (k : String) : alookup (adel a k) k = none := by
  induction a with
  | nil => rfl
  | cons p rest ih =>
    unfold adel at ih ⊢
    rw [List.filter_cons]
    cases hb : (p.1 == k) with
    | true => simpa using ih
    | false =>
      simp only [hb, Bool.not_false, if_true]
      unfold alookup
      rw [hb]
      simpa using ih

theorem cleanAttrs_ok (m : Nat) (a : Attrs) (m1 : Nat) (a1 : Attrs)
    (h : cleanAttrs m a = .ok (m1, a1)) : idFlexB true (alookup a1 "id") = true := by
  unfold cleanAttrs at h
  cases hl : alookup a "id" with
  | none =>
    rw [hl] at h
    simp only [Except.ok.injEq, Prod.mk.injEq] at h
    rw [← h.2, hl]
    rfl
  | some id0 =>
    rw [hl] at h
    dsimp only at h
    cases hbad : ((pyStrip id0).data.contains '|' || (pyStrip id0).data.contains '/') with
    | true => rw [hbad] at h; simp at h
    | false =>
      rw [hbad] at h
      simp only [Bool.false_eq_true, if_false] at h
      cases hdig : pyIsDigitStr (pyStrip id0) with
      | true =>
        rw [hdig] at h
        simp only [if_true, Except.ok.injEq, Prod.mk.injEq] at h
        rw [← h.2, alookup_adel_self]
        rfl
      | false =>
        rw [hdig] at h
        simp only [Bool.false_eq_true, if_false, Except.ok.injEq, Prod.mk.injEq] at h
        rw [← h.2, alookup_kvset_self]
        simp only [idFlexB]
        rcases Bool.or_eq_false_iff.mp hbad with ⟨hb1, hb2⟩
        rw [hb1, hb2]
        rfl

mutual

theorem cleanElem_weak (tg : String) : ∀ (e : Elem) (m m' : Nat) (e' : Elem),
    cleanElem tg m e = .ok (m', some e') → tagOkE tg true e' = true
  | .mk t a x cs tl => fun m m' e' h => by
    unfold cleanElem at h
    cases ht : (t == tg) with
    | true =>
      rw [ht] at h
      simp only [if_true] at h
      cases hca : cleanAttrs m a with
      | error e1 => rw [hca] at h; simp at h
      | ok p =>
        rw [hca] at h
        dsimp only at h
        cases hemp : isEmptyNode cs x with
        | true => rw [hemp] at h; simp at h
        | false =>
          rw [hemp] at h
          simp only [Bool.false_eq_true, if_false] at h
          cases hcl : cleanL tg p.1 cs with
          | error e1 => rw [hcl] at h; simp at h
          | ok q =>
            rw [hcl] at h
            simp only [Except.ok.injEq, Prod.mk.injEq, Option.some.injEq] at h
            rw [← h.2]
            unfold tagOkE
            rw [ht]
            have hid := cleanAttrs_ok m a p.1 p.2 (by rw [hca])
            rw [hid, cleanL_weak tg cs p.1 q.1 q.2 (by rw [hcl])]
            rfl
    | false =>
      rw [ht] at h
      simp only [Bool.false_eq_true, if_false] at h
      cases hcl : cleanL tg m cs with
      | error e1 => rw [hcl] at h; simp at h
      | ok q =>
        rw [hcl] at h
        simp only [Except.ok.injEq, Prod.mk.injEq, Option.some.injEq] at h
        rw [← h.2]
        unfold tagOkE
        rw [ht, cleanL_weak tg cs m q.1 q.2 (by rw [hcl])]
        simp

theorem cleanL_weak (tg : String) : ∀ (cs : List Elem) (m m' : Nat) (cs' : List Elem),
    cleanL tg m cs = .ok (m', cs') → tagOkL tg true cs' = true
  | [], m, m', cs' => fun h => by
    unfold cleanL at h
    simp only [Except.ok.injEq, Prod.mk.injEq] at h
    rw [← h.2]
    rfl
  | c :: rest, m, m', cs' => fun h => by
    unfold cleanL at h
    cases hce : cleanElem tg m c with
    | error e1 => rw [hce] at h; simp at h
    | ok p =>
      rw [hce] at h
      dsimp only at h
      cases hcl : cleanL tg p.1 rest with
      | error e1 => rw [hcl] at h; simp at h
      | ok q =>
        rw [hcl] at h
        simp only [Except.ok.injEq, Prod.mk.injEq] at h
        rw [← h.2]
        cases hoc : p.2 with
        | none => exact cleanL_weak tg rest p.1 q.1 q.2 (by rw [hcl])
        | some c1 =>
          unfold tagOkL
          rw [cleanElem_weak tg c m p.1 c1 (by rw [hce, ← hoc]),
            cleanL_weak tg rest p.1 q.1 q.2 (by rw [hcl])]
          rfl

end

mutual

theorem cleanElem_pres (tg tg2 : String) (w : Bool) (hne : tg2 ≠ tg) :
    ∀ (e : Elem) (m m' : Nat) (e' : Elem),
    cleanElem tg m e = .ok (m', some e') → tagOkE tg2 w e = true → tagOkE tg2 w e' = true
  | .mk t a x cs tl => fun m m' e' h hok => by
    unfold tagOkE at hok
    rcases Bool.and_eq_true_iff.mp hok with ⟨hok1, hok2⟩
    unfold cleanElem at h
    cases ht : (t == tg) with
    | true =>
      rw [ht] at h
      simp only [if_true] at h
      cases hca : cleanAttrs m a with
      | error e1 => rw [hca] at h; simp at h
      | ok p =>
        rw [hca] at h
        dsimp only at h
        cases hemp : isEmptyNode cs x with
        | true => rw [hemp] at h; simp at h
        | false =>
          rw [hemp] at h
          simp only [Bool.false_eq_true, if_false] at h
          cases hcl : cleanL tg p.1 cs with
          | error e1 => rw [hcl] at h; simp at h
          | ok q =>
            rw [hcl] at h
            simp only [Except.ok.injEq, Prod.mk.injEq, Option.some.injEq] at h
            rw [← h.2]
            unfold tagOkE
            have ht2 : (t == tg2) = false := by
              have := beq_iff_eq.mp ht
              subst this
              rw [beq_eq_false_iff_ne]
              exact fun he => hne he.symm
            rw [ht2, cleanL_pres tg tg2 w hne cs p.1 q.1 q.2 (by rw [hcl]) hok2]
            rfl
    | false =>
      rw [ht] at h
      simp only [Bool.false_eq_true, if_false] at h
      cases hcl : cleanL tg m cs with
      | error e1 => rw [hcl] at h; simp at h
      | ok q =>
        rw [hcl] at h
        simp only [Except.ok.injEq, Prod.mk.injEq, Option.some.injEq] at h
        rw [← h.2]
        unfold tagOkE
        rw [hok1, cleanL_pres tg tg2 w hne cs m q.1 q.2 (by rw [hcl]) hok2]
        rfl

theorem cleanL_pres (tg tg2 : String) (w : Bool) (hne : tg2 ≠ tg) :
    ∀ (cs : List Elem) (m m' : Nat) (cs' : List Elem),
    cleanL tg m cs = .ok (m', cs') → tagOkL tg2 w cs = true → tagOkL tg2 w cs' = true
  | [], m, m', cs' => fun h _ => by
    unfold cleanL at h
    simp only [Except.ok.injEq, Prod.mk.injEq] at h
    rw [← h.2]
    rfl
  | c :: rest, m, m', cs' => fun h hok => by
    unfold tagOkL at hok
    rcases Bool.and_eq_true_iff.mp hok with ⟨hok1, hok2⟩
    unfold cleanL at h
    cases hce : cleanElem tg m c with
    | error e1 => rw [hce] at h; simp at h
    | ok p =>
      rw [hce] at h
      dsimp only at h
      cases hcl : cleanL tg p.1 rest with
      | error e1 => rw [hcl] at h; simp at h
      | ok q =>
        rw [hcl] at h
        simp only [Except.ok.injEq, Prod.mk.injEq] at h
        rw [← h.2]
        cases hoc : p.2 with
        | none => exact cleanL_pres tg tg2 w hne rest p.1 q.1 q.2 (by rw [hcl]) hok2
        | some c1 =>
          unfold tagOkL
          rw [cleanElem_pres tg tg2 w hne c m p.1 c1 (by rw [hce, ← hoc]) hok1,
            cleanL_pres tg tg2 w hne rest p.1 q.1 q.2 (by rw [hcl]) hok2]
          rfl

end

mutual

theorem assignElem_strong (tg : String) : ∀ (e : Elem) (m : Nat),
    tagOkE tg true e = true → tagOkE tg false (assignElem tg m e).2 = true
  | .mk t a x cs tl => fun m hok => by
    unfold tagOkE at hok
    rcases Bool.and_eq_true_iff.mp hok with ⟨hok1, hok2⟩
    unfold assignElem
    dsimp only
    unfold tagOkE
    cases hc : (t == tg && (alookup a "id").isNone) with
    | true =>
      simp only [if_true]
      rcases Bool.and_eq_true_iff.mp hc with ⟨hct, _⟩
      rw [hct]
      simp only [Bool.not_true, Bool.false_or]
      rw [alookup_kvset_self, trsvgStr_ok, assignL_strong tg cs _ hok2]
      rfl
    | false =>
      simp only [Bool.false_eq_true, if_false]
      rw [assignL_strong tg cs _ hok2]
      cases hct : (t == tg) with
      | false => simp [hct]
      | true =>
        rw [hct] at hok1 hc
        simp only [Bool.not_true, Bool.false_or] at hok1
        simp only [Bool.true_and] at hc
        cases hla : alookup a "id" with
        | none => rw [hla] at hc; simp at hc
        | some s =>
          rw [hla] at hok1
          simp only [Bool.not_true, Bool.false_or, Bool.and_true]
          exact hok1

theorem assignL_strong (tg : String) : ∀ (cs : List Elem) (m : Nat),
    tagOkL tg true cs = true → tagOkL tg false (assignL tg m cs).2 = true
  | [], _ => fun _ => rfl
  | c :: rest, m => fun hok => by
    unfold tagOkL at hok
    rcases Bool.and_eq_true_iff.mp hok with ⟨hok1, hok2⟩
    unfold assignL
    dsimp only
    unfold tagOkL
    rw [assignElem_strong tg c m hok1, assignL_strong tg rest _ hok2]
    rfl

end

mutual

theorem assignElem_pres (tg tg2 : String) (w : Bool) (hne : tg2 ≠ tg) :
    ∀ (e : Elem) (m : Nat),
    tagOkE tg2 w e = true → tagOkE tg2 w (assignElem tg m e).2 = true
  | .mk t a x cs tl => fun m hok => by
    unfold tagOkE at hok
    rcases Bool.and_eq_true_iff.mp hok with ⟨hok1, hok2⟩
    unfold assignElem
    dsimp only
    unfold tagOkE
    cases hc : (t == tg && (alookup a "id").isNone) with
    | true =>
      simp only [if_true]
      rcases Bool.and_eq_true_iff.mp hc with ⟨hct, _⟩
      have ht2 : (t == tg2) = false := by
        have := beq_iff_eq.mp hct
        subst this
        rw [beq_eq_false_iff_ne]
        exact fun he => hne he.symm
      rw [ht2]
      simp only [Bool.not_false, Bool.true_or]
      rw [assignL_pres tg tg2 w hne cs _ hok2]
      rfl
    | false =>
      simp only [Bool.false_eq_true, if_false]
      rw [hok1, assignL_pres tg tg2 w hne cs _ hok2]
      rfl

theorem assignL_pres (tg tg2 : String) (w : Bool) (hne : tg2 ≠ tg) :
    ∀ (cs : List Elem) (m : Nat),
    tagOkL tg2 w cs = true → tagOkL tg2 w (assignL tg m cs).2 = true
  | [], _ => fun _ => rfl
  | c :: rest, m => fun hok => by
    unfold tagOkL at hok
    rcases Bool.and_eq_true_iff.mp hok with ⟨hok1, hok2⟩
    unfold assignL
    dsimp only
    unfold tagOkL
    rw [assignElem_pres tg tg2 w hne c m hok1, assignL_pres tg tg2 w hne rest _ hok2]
    rfl

end

theorem mergeFill_append : ∀ (l1 : List (Option String)) (m : Nat) (l2 : List (Option String)),
    mergeFill m (l1 ++ l2) = mergeFill m l1 ++ mergeFill (m + l1.count none) l2
  | [], m, l2 => by simp [mergeFill]
  | some s :: rest, m, l2 => by
    have h1 : mergeFill m ((some s :: rest) ++ l2) = some s :: mergeFill m (rest ++ l2) := rfl
    have h2 : mergeFill m (some s :: rest) = some s :: mergeFill m rest := rfl
    have hc : (some s :: rest).count (none : Option String) = rest.count none := by
      rw [List.count_cons]
      simp
    rw [h1, h2, hc, mergeFill_append rest m l2, List.cons_append]
  | none :: rest, m, l2 => by
    have h1 : mergeFill m ((none :: rest) ++ l2)
        = some (trsvgStr (m + 1)) :: mergeFill (m + 1) (rest ++ l2) := rfl
    have h2 : mergeFill m (none :: rest)
        = some (trsvgStr (m + 1)) :: mergeFill (m + 1) rest := rfl
    have hc : (none :: rest).count (none : Option String) = rest.count none + 1 := by
      rw [List.count_cons]
      simp
    rw [h1, h2, hc, mergeFill_append rest (m + 1) l2, List.cons_append]
    have harith : m + 1 + rest.count none = m + (rest.count none + 1) := by omega
    rw [harith]

mutual

theorem assignElem_collect (tg : String) : ∀ (e : Elem) (m : Nat),
    collectE tg (assignElem tg m e).2 = mergeFill m (collectE tg e)
    ∧ (assignElem tg m e).1 = m + (collectE tg e).count none
  | .mk t a x cs tl => fun m => by
    unfold assignElem
    dsimp only
    unfold collectE
    cases hc : (t == tg && (alookup a "id").isNone) with
    | true =>
      simp only [if_true]
      rcases Bool.and_eq_true_iff.mp hc with ⟨hct, hcn⟩
      rw [hct]
      simp only [if_true]
      rw [alookup_kvset_self]
      rw [Option.isNone_iff_eq_none] at hcn
      rw [hcn]
      rcases assignL_collect tg cs (m + 1) with ⟨ih1, ih2⟩
      constructor
      · rw [ih1]
        rw [show ([(none : Option String)] ++ collectL tg cs) = none :: collectL tg cs from rfl]
        rfl
      · rw [ih2]
        rw [show ([(none : Option String)] ++ collectL tg cs) = none :: collectL tg cs from rfl]
        rw [List.count_cons]
        simp only [show ((none : Option String) == none) = true from rfl, if_true]
        omega
    | false =>
      simp only [Bool.false_eq_true, if_false]
      rcases assignL_collect tg cs m with ⟨ih1, ih2⟩
      cases hct : (t == tg) with
      | false =>
        rw [hct] at hc
        simp only [Bool.false_eq_true, if_false, List.nil_append]
        exact ⟨ih1, ih2⟩
      | true =>
        rw [hct] at hc
        simp only [Bool.true_and] at hc
        simp only [if_true]
        cases hla : alookup a "id" with
        | none => rw [hla] at hc; simp at hc
        | some s =>
          rw [show ([(some s : Option String)] ++ collectL tg cs) = some s :: collectL tg cs from rfl]
          constructor
          · rw [ih1]
            rfl
          · rw [ih2, List.count_cons]
            simp

theorem assignL_collect (tg : String) : ∀ (cs : List Elem) (m : Nat),
    collectL tg (assignL tg m cs).2 = mergeFill m (collectL tg cs)
    ∧ (assignL tg m cs).1 = m + (collectL tg cs).count none
  | [], m => by
    constructor
    · rfl
    · simp [assignL, collectL]
  | c :: rest, m => by
    unfold assignL
    dsimp only
    unfold collectL
    rcases assignElem_collect tg c m with ⟨ih1, ih2⟩
    rcases assignL_collect tg rest ((assignElem tg m c).1) with ⟨ih3, ih4⟩
    constructor
    · rw [ih1, ih3, ih2, mergeFill_append]
    · rw [ih4, ih2, List.count_append]
      omega

end

theorem gapNums_range : ∀ (l : List (Option String)) (m : Nat),
    gapNums m l = List.range' (m + 1) (l.count none)
  | [], m => by simp [gapNums]
  | some s :: rest, m => by
    unfold gapNums
    rw [gapNums_range rest m, List.count_cons]
    simp
  | none :: rest, m => by
    unfold gapNums
    rw [gapNums_range rest (m + 1), List.count_cons]
    simp only [show ((none : Option String) == none) = true from rfl, if_true]
    rw [List.range'_succ]

theorem setAttr_tagOk (tg : String) (w : Bool) (e : Elem) (k v : String)
    (hk : "id" ≠ k) : tagOkE tg w (e.setAttr k v) = tagOkE tg w e := by
  cases e with
  | mk t a x cs tl =>
    unfold Elem.setAttr tagOkE
    rw [alookup_kvset_ne a k "id" v hk]

mutual

theorem prepElem_pres (tg : String) (w : Bool) (hsw : (svgSwitch == tg) = false) :
    ∀ (e : Elem) (e' : Elem),
    prepElem e = .ok e' → tagOkE tg w e = true → tagOkE tg w e' = true
  | .mk t a x cs tl => fun e' h hok => by
    unfold tagOkE at hok
    rcases Bool.and_eq_true_iff.mp hok with ⟨hok1, hok2⟩
    unfold prepElem at h
    cases hpc : prepChildren t a cs with
    | error e1 => rw [hpc] at h; simp at h
    | ok p =>
      rw [hpc] at h
      dsimp only at h
      simp only [Except.ok.injEq] at h
      rcases prepChildren_pres tg w hsw cs t a p.1 p.2 (by rw [hpc]) hok2 with ⟨hcs, hid⟩
      rw [← h]
      unfold tagOkE
      rw [hid, hcs]
      rw [Bool.and_true]
      exact hok1

theorem prepChildren_pres (tg : String) (w : Bool) (hsw : (svgSwitch == tg) = false) :
    ∀ (cs : List Elem) (ptag : String) (pa pa1 : Attrs) (cs1 : List Elem),
    prepChildren ptag pa cs = .ok (pa1, cs1) → tagOkL tg w cs = true →
    tagOkL tg w cs1 = true ∧ alookup pa1 "id" = alookup pa "id"
  | [], ptag, pa, pa1, cs1 => fun h _ => by
    unfold prepChildren at h
    simp only [Except.ok.injEq, Prod.mk.injEq] at h
    rw [← h.1, ← h.2]
    exact ⟨rfl, rfl⟩
  | c :: rest, ptag, pa, pa1, cs1 => fun h hok => by
    unfold tagOkL at hok
    rcases Bool.and_eq_true_iff.mp hok with ⟨hok1, hok2⟩
    unfold prepChildren at h
    cases hct : (c.tag == svgText) with
    | true =>
      rw [hct] at h
      simp only [if_true] at h
      cases hdol : containsDollarNum (get_text_content c).data with
      | true => rw [hdol] at h; simp at h
      | false =>
        rw [hdol] at h
        simp only [Bool.false_eq_true, if_false] at h
        have hc1ok : ∀ c1, (c1 = c ∨ ∃ v0, c1 = c.setAttr "systemLanguage" v0) →
            tagOkE tg w c1 = true := by
          intro c1 hc1
          rcases hc1 with hc1 | ⟨v0, hc1⟩
          · rw [hc1]; exact hok1
          · rw [hc1, setAttr_tagOk tg w c "systemLanguage" v0 (by decide)]
            exact hok1
        have hshape : ∀ (c1 : Elem), (match truthyAttr c.attrs "systemLanguage" with
            | some v => c.setAttr "systemLanguage" (normalize_lang v)
            | none => c) = c1 → c1 = c ∨ ∃ v0, c1 = c.setAttr "systemLanguage" v0 := by
          intro c1 hc1
          cases hta : truthyAttr c.attrs "systemLanguage" with
          | none => rw [hta] at hc1; exact Or.inl hc1.symm
          | some v => rw [hta] at hc1; exact Or.inr ⟨normalize_lang v, hc1.symm⟩
        revert h
        generalize hgen : (match truthyAttr c.attrs "systemLanguage" with
            | some v => c.setAttr "systemLanguage" (normalize_lang v)
            | none => c) = c1
        intro h
        have hc1 : tagOkE tg w c1 = true := hc1ok c1 (hshape c1 hgen)
        cases hall : c1.children.all (fun ch => ch.tag == svgTspan || ch.tag == "tspan") with
        | false => rw [hall] at h; simp at h
        | true =>
          rw [hall] at h
          simp only [if_true] at h
          cases hpt : isSwitchTag ptag with
          | true =>
            rw [hpt] at h
            simp only [if_true] at h
            revert h
            generalize hpa1 : (match truthyAttr c1.attrs "style" with
                | some v => kvset pa "style" v
                | none => pa) = paNext
            intro h
            cases hrec : prepChildren ptag paNext rest with
            | error e1 => rw [hrec] at h; simp at h
            | ok q =>
              rw [hrec] at h
              simp only [Except.ok.injEq, Prod.mk.injEq] at h
              rcases prepChildren_pres tg w hsw rest ptag paNext q.1 q.2
                (by rw [hrec]) hok2 with ⟨hq1, hq2⟩
              constructor
              · rw [← h.2]
                unfold tagOkL
                rw [hc1, hq1]
                rfl
              · rw [← h.1, hq2]
                have : alookup paNext "id" = alookup pa "id" := by
                  cases hst : truthyAttr c1.attrs "style" with
                  | none => rw [hst] at hpa1; rw [← hpa1]
                  | some v =>
                    rw [hst] at hpa1
                    rw [← hpa1]
                    exact alookup_kvset_ne pa "style" "id" v (by decide)
                exact this
          | false =>
            rw [hpt] at h
            simp only [Bool.false_eq_true, if_false] at h
            revert h
            generalize hsw1 : (match truthyAttr c1.attrs "style" with
                | some v => (Elem.mk svgSwitch [] none [c1] none).setAttr "style" v
                | none => Elem.mk svgSwitch [] none [c1] none) = swNew
            intro h
            have hswok : tagOkE tg w swNew = true := by
              have hbase : tagOkE tg w (Elem.mk svgSwitch [] none [c1] none) = true := by
                unfold tagOkE
                rw [hsw]
                unfold tagOkL
                rw [hc1]
                unfold tagOkL
                rfl
              cases hst : truthyAttr c1.attrs "style" with
              | none => rw [hst] at hsw1; rw [← hsw1]; exact hbase
              | some v =>
                rw [hst] at hsw1
                rw [← hsw1, setAttr_tagOk tg w _ "style" v (by decide)]
                exact hbase
            cases hrec : prepChildren ptag pa rest with
            | error e1 => rw [hrec] at h; simp at h
            | ok q =>
              rw [hrec] at h
              simp only [Except.ok.injEq, Prod.mk.injEq] at h
              rcases prepChildren_pres tg w hsw rest ptag pa q.1 q.2
                (by rw [hrec]) hok2 with ⟨hq1, hq2⟩
              constructor
              · rw [← h.2]
                unfold tagOkL
                rw [hswok, hq1]
                rfl
              · rw [← h.1]
                exact hq2
    | false =>
      rw [hct] at h
      simp only [Bool.false_eq_true, if_false] at h
      cases hpe : prepElem c with
      | error e1 => rw [hpe] at h; simp at h
      | ok c1 =>
        rw [hpe] at h
        cases hrec : prepChildren ptag pa rest with
        | error e1 => rw [hrec] at h; simp at h
        | ok q =>
          rw [hrec] at h
          simp only [Except.ok.injEq, Prod.mk.injEq] at h
          rcases prepChildren_pres tg w hsw rest ptag pa q.1 q.2
            (by rw [hrec]) hok2 with ⟨hq1, hq2⟩
          constructor
          · rw [← h.2]
            unfold tagOkL
            rw [prepElem_pres tg w hsw c c1 (by rw [hpe]) hok1, hq1]
            rfl
          · rw [← h.1]
            exact hq2

end

mutual

theorem expandElem_pres (tg : String) (w : Bool) :
    ∀ (e e' : Elem), expandElem e = .ok e' → tagOkE tg w e = true → tagOkE tg w e' = true
  | .mk t a x cs tl => fun e' h hok => by
    unfold tagOkE at hok
    rcases Bool.and_eq_true_iff.mp hok with ⟨hok1, hok2⟩
    unfold expandElem at h
    cases hsw : (t == svgSwitch) with
    | true =>
      rw [hsw] at h
      simp only [if_true] at h
      cases hec : expandChildren [] cs with
      | error e1 => rw [hec] at h; simp at h
      | ok p =>
        rw [hec] at h
        dsimp only at h
        simp only [Except.ok.injEq] at h
        rcases expandChildren_pres tg w cs [] p.1 p.2 (by rw [hec]) hok2 with ⟨hk, hc⟩
        rw [← h]
        unfold tagOkE
        rw [tagOkL_append, hk, hc]
        simp only [Bool.and_true]
        exact hok1
    | false =>
      rw [hsw] at h
      simp only [Bool.false_eq_true, if_false] at h
      cases hel : expandL cs with
      | error e1 => rw [hel] at h; simp at h
      | ok cs1 =>
        rw [hel] at h
        simp only [Except.ok.injEq] at h
        rw [← h]
        unfold tagOkE
        rw [expandL_pres tg w cs cs1 (by rw [hel]) hok2]
        rw [Bool.and_true]
        exact hok1

theorem expandL_pres (tg : String) (w : Bool) :
    ∀ (cs cs1 : List Elem), expandL cs = .ok cs1 → tagOkL tg w cs = true →
    tagOkL tg w cs1 = true
  | [], cs1 => fun h _ => by
    unfold expandL at h
    simp only [Except.ok.injEq] at h
    rw [← h]
    rfl
  | c :: cs, cs1 => fun h hok => by
    unfold tagOkL at hok
    rcases Bool.and_eq_true_iff.mp hok with ⟨hok1, hok2⟩
    unfold expandL at h
    cases hee : expandElem c with
    | error e1 => rw [hee] at h; simp at h
    | ok c1 =>
      rw [hee] at h
      cases hel : expandL cs with
      | error e1 => rw [hel] at h; simp at h
      | ok cs2 =>
        rw [hel] at h
        simp only [Except.ok.injEq] at h
        rw [← h]
        unfold tagOkL
        rw [expandElem_pres tg w c c1 (by rw [hee]) hok1,
            expandL_pres tg w cs cs2 (by rw [hel]) hok2]
        rfl

theorem expandChildren_pres (tg : String) (w : Bool) :
    ∀ (cs : List Elem) (langs : List String) (kept clones : List Elem),
    expandChildren langs cs = .ok (kept, clones) → tagOkL tg w cs = true →
    tagOkL tg w kept = true ∧ tagOkL tg w clones = true
  | [], langs, kept, clones => fun h _ => by
    unfold expandChildren at h
    simp only [Except.ok.injEq, Prod.mk.injEq] at h
    rw [← h.1, ← h.2]
    exact ⟨rfl, rfl⟩
  | c :: rest, langs, kept, clones => fun h hok => by
    unfold tagOkL at hok
    rcases Bool.and_eq_true_iff.mp hok with ⟨hok1, hok2⟩
    unfold expandChildren at h
    cases htc : isTextChildTag c.tag with
    | false => rw [htc] at h; simp at h
    | true =>
      rw [htc] at h
      simp only [if_true] at h
      cases hlc : langs.contains (tagOfChild c) with
      | true => rw [hlc] at h; simp at h
      | false =>
        rw [hlc] at h
        simp only [Bool.false_eq_true, if_false] at h
        cases hdup : hasDupB (splitCommaWs (tagOfChild c)) with
        | true => rw [hdup] at h; simp at h
        | false =>
          rw [hdup] at h
          simp only [Bool.false_eq_true, if_false] at h
          cases hone : (splitCommaWs (tagOfChild c)).length == 1 with
          | true =>
            rw [hone] at h
            simp only [if_true] at h
            cases hee : expandElem c with
            | error e1 => rw [hee] at h; simp at h
            | ok c1 =>
              rw [hee] at h
              cases hrec : expandChildren (langs ++ [tagOfChild c]) rest with
              | error e1 => rw [hrec] at h; simp at h
              | ok q =>
                rw [hrec] at h
                dsimp only at h
                simp only [Except.ok.injEq, Prod.mk.injEq] at h
                rcases expandChildren_pres tg w rest (langs ++ [tagOfChild c]) q.1 q.2
                  (by rw [hrec]) hok2 with ⟨hq1, hq2⟩
                constructor
                · rw [← h.1]
                  unfold tagOkL
                  rw [expandElem_pres tg w c c1 (by rw [hee]) hok1, hq1]
                  rfl
                · rw [← h.2]
                  exact hq2
          | false =>
            rw [hone] at h
            simp only [Bool.false_eq_true, if_false] at h
            cases hrec : expandChildren (langs ++ [tagOfChild c]) rest with
            | error e1 => rw [hrec] at h; simp at h
            | ok q =>
              rw [hrec] at h
              dsimp only at h
              simp only [Except.ok.injEq, Prod.mk.injEq] at h
              rcases expandChildren_pres tg w rest (langs ++ [tagOfChild c]) q.1 q.2
                (by rw [hrec]) hok2 with ⟨hq1, hq2⟩
              constructor
              · rw [← h.1]
                exact hq1
              · rw [← h.2]
                rw [tagOkL_append, hq2, Bool.and_true]
                rw [tagOkL_eq_all, List.all_eq_true]
                intro x hx
                rcases List.mem_map.mp hx with ⟨rl, _, hxe⟩
                rw [← hxe, setAttr_tagOk tg w c "systemLanguage" rl (by decide)]
                exact hok1

end

theorem reorderSwitch_tagOk (tg : String) (w : Bool) (cs : List Elem)
    (h : tagOkL tg w cs = true) : tagOkL tg w (reorderSwitchChildren cs) = true := by
  rw [tagOkL_eq_all, List.all_eq_true] at h ⊢
  intro x hx
  unfold reorderSwitchChildren at hx
  rw [List.mem_append] at hx
  rcases hx with hx | hx
  · exact h x (List.mem_filter.mp hx).1
  · exact h x (List.mem_filter.mp (mem_sortByKey _ x _ hx)).1

mutual

theorem reorderElem_pres (tg : String) (w : Bool) :
    ∀ (e : Elem), tagOkE tg w e = true → tagOkE tg w (reorderElem e) = true
  | .mk t a x cs tl => fun hok => by
    unfold tagOkE at hok
    rcases Bool.and_eq_true_iff.mp hok with ⟨hok1, hok2⟩
    have hcs1 : tagOkL tg w (reorderL cs) = true := reorderL_pres tg w cs hok2
    unfold reorderElem
    dsimp only
    unfold tagOkE
    cases hsw : (t == svgSwitch) with
    | true =>
      rw [if_pos rfl, reorderSwitch_tagOk tg w (reorderL cs) hcs1, Bool.and_true]
      exact hok1
    | false =>
      rw [if_neg Bool.false_ne_true, hcs1, Bool.and_true]
      exact hok1

theorem reorderL_pres (tg : String) (w : Bool) :
    ∀ (cs : List Elem), tagOkL tg w cs = true → tagOkL tg w (reorderL cs) = true
  | [] => fun _ => rfl
  | c :: cs => fun hok => by
    unfold tagOkL at hok
    rcases Bool.and_eq_true_iff.mp hok with ⟨hok1, hok2⟩
    unfold reorderL tagOkL
    rw [reorderElem_pres tg w c hok1, reorderL_pres tg w cs hok2]
    rfl

end

theorem children_withChildren (r : Elem) (cs : List Elem) :
    (r.withChildren cs).children = cs := by
  cases r
  rfl

theorem subElems_eq_children (r : Elem) : subElems r = subElemsL r.children := by
  cases r
  rfl

theorem cleanRoot_weak (tg : String) (m m1 : Nat) (r r1 : Elem)
    (h : cleanRoot tg m r = .ok (m1, r1)) : tagOkL tg true r1.children = true := by
  unfold cleanRoot at h
  cases hcl : cleanL tg m r.children with
  | error e1 => rw [hcl] at h; simp at h
  | ok p =>
    rw [hcl] at h
    dsimp only at h
    simp only [Except.ok.injEq, Prod.mk.injEq] at h
    rw [← h.2, children_withChildren]
    exact cleanL_weak tg r.children m p.1 p.2 (by rw [hcl])

theorem cleanRoot_pres (tg tg2 : String) (w : Bool) (hne : tg2 ≠ tg) (m m1 : Nat)
    (r r1 : Elem) (h : cleanRoot tg m r = .ok (m1, r1))
    (hok : tagOkL tg2 w r.children = true) : tagOkL tg2 w r1.children = true := by
  unfold cleanRoot at h
  cases hcl : cleanL tg m r.children with
  | error e1 => rw [hcl] at h; simp at h
  | ok p =>
    rw [hcl] at h
    dsimp only at h
    simp only [Except.ok.injEq, Prod.mk.injEq] at h
    rw [← h.2, children_withChildren]
    exact cleanL_pres tg tg2 w hne r.children m p.1 p.2 (by rw [hcl]) hok

theorem assignRoot_strong (tg : String) (m : Nat) (r : Elem)
    (hok : tagOkL tg true r.children = true) :
    tagOkL tg false (assignRoot tg m r).2.children = true := by
  unfold assignRoot
  dsimp only
  rw [children_withChildren]
  exact assignL_strong tg r.children m hok

theorem assignRoot_pres (tg tg2 : String) (w : Bool) (hne : tg2 ≠ tg) (m : Nat)
    (r : Elem) (hok : tagOkL tg2 w r.children = true) :
    tagOkL tg2 w (assignRoot tg m r).2.children = true := by
  unfold assignRoot
  dsimp only
  rw [children_withChildren]
  exact assignL_pres tg tg2 w hne r.children m hok

theorem prepRoot_pres (tg : String) (w : Bool) (hsw : (svgSwitch == tg) = false)
    (r r' : Elem) (h : prepRoot r = .ok r')
    (hok : tagOkL tg w r.children = true) : tagOkL tg w r'.children = true := by
  cases r with
  | mk t a x cs tl =>
    dsimp only [Elem.children] at hok
    unfold prepRoot prepElem at h
    cases hpc : prepChildren t a cs with
    | error e1 => rw [hpc] at h; simp at h
    | ok p =>
      rw [hpc] at h
      dsimp only at h
      simp only [Except.ok.injEq] at h
      rw [← h]
      dsimp only [Elem.children]
      exact (prepChildren_pres tg w hsw cs t a p.1 p.2 (by rw [hpc]) hok).1

theorem expandRoot_pres (tg : String) (w : Bool) (r r' : Elem)
    (h : expandRoot r = .ok r') (hok : tagOkL tg w r.children = true) :
    tagOkL tg w r'.children = true := by
  unfold expandRoot at h
  cases hel : expandL r.children with
  | error e1 => rw [hel] at h; simp at h
  | ok cs1 =>
    rw [hel] at h
    simp only [Except.ok.injEq] at h
    rw [← h, children_withChildren]
    exact expandL_pres tg w r.children cs1 (by rw [hel]) hok

theorem reorder_texts_pres (tg : String) (w : Bool) (r : Elem)
    (hok : tagOkL tg w r.children = true) :
    tagOkL tg w (reorder_texts r).children = true := by
  unfold reorder_texts
  rw [children_withChildren]
  exact reorderL_pres tg w r.children hok

theorem ttIds_ok (r : Elem) (ht : tagOkL svgText false r.children = true)
    (hs : tagOkL svgTspan false r.children = true) :
    (idsOfTTBelow r).all (idFlexB false) = true := by
  rw [idsOfTTBelow, List.all_eq_true]
  intro y hy
  rcases List.mem_map.mp hy with ⟨x, hxf, hxe⟩
  have hxm : x ∈ subElemsL r.children := by
    rw [← subElems_eq_children]
    exact (List.mem_filter.mp hxf).1
  have hxtt : isTT x = true := (List.mem_filter.mp hxf).2
  unfold isTT at hxtt
  rw [← hxe]
  rcases Bool.or_eq_true_iff.mp hxtt with htx | htx
  · exact tagOkL_forall svgText false r.children ht x hxm htx
  · exact tagOkL_forall svgTspan false r.children hs x hxm htx

/-- C2: amended. What survives of the claim: after any successful full run of
make_translation_ready, every text and tspan element below the root carries
an id attribute, and no id contains a pipe or a slash; and the assignment
pass gives exactly the id-less nodes of a tag the reserved ids trsvg followed
by m+1, m+2, ... strictly beyond the running maximum m, in document order,
leaving present ids verbatim. The uniqueness and non-emptiness parts of the
claim are false: see the counterexample. -/
theorem c2_ids_amended :
    (∀ (d : Doc) (d' : Doc), make_translation_ready d = .ok (d', true) →
      (idsOfTTBelow d'.root).all (idFlexB false) = true) ∧
    (∀ (tg : String) (m : Nat) (cs : List Elem),
      collectL tg (assignL tg m cs).2 = mergeFill m (collectL tg cs) ∧
      gapNums m (collectL tg cs) = List.range' (m + 1) ((collectL tg cs).count none)) := by
  constructor
  · intro d d' h
    unfold make_translation_ready at h
    cases hemp : (findAll (fun e => e.tag == svgText) (nsFix d).root).isEmpty with
    | true => rw [hemp] at h; simp at h
    | false =>
      rw [hemp] at h
      simp only [Bool.false_eq_true, if_false] at h
      cases hcs : checkStyles (nsFix d).root with
      | error e1 => rw [hcs] at h; simp at h
      | ok u1 =>
        rw [hcs] at h
        cases hct : checkTrefs (nsFix d).root with
        | error e1 => rw [hct] at h; simp at h
        | ok u2 =>
          rw [hct] at h
          cases hcn : checkNestedTspans (nsFix d).root with
          | error e1 => rw [hcn] at h; simp at h
          | ok u3 =>
            rw [hcn] at h
            cases hc1 : cleanRoot svgTspan 0 (wrapRoot (nsFix d).root) with
            | error e1 => rw [hc1] at h; simp at h
            | ok p1 =>
              rw [hc1] at h
              dsimp only at h
              cases hc2 : cleanRoot svgText p1.1 p1.2 with
              | error e1 => rw [hc2] at h; simp at h
              | ok p2 =>
                rw [hc2] at h
                dsimp only at h
                cases hpr : prepRoot (assignRoot svgText
                    (assignRoot svgTspan p2.1 p2.2).1
                    (assignRoot svgTspan p2.1 p2.2).2).2 with
                | error e1 => rw [hpr] at h; simp at h
                | ok r7 =>
                  rw [hpr] at h
                  dsimp only at h
                  cases hex : expandRoot r7 with
                  | error e1 => rw [hex] at h; simp at h
                  | ok r8 =>
                    rw [hex] at h
                    simp only [Except.ok.injEq, Prod.mk.injEq] at h
                    have hroot : d'.root = reorder_texts r8 := by
                      rw [← h.1]
                    have h3 : tagOkL svgTspan true p1.2.children = true :=
                      cleanRoot_weak svgTspan 0 p1.1 (wrapRoot (nsFix d).root) p1.2
                        (by rw [hc1])
                    have h4a : tagOkL svgText true p2.2.children = true :=
                      cleanRoot_weak svgText p1.1 p2.1 p1.2 p2.2 (by rw [hc2])
                    have h4b : tagOkL svgTspan true p2.2.children = true :=
                      cleanRoot_pres svgText svgTspan true (by decide) p1.1 p2.1
                        p1.2 p2.2 (by rw [hc2]) h3
                    have h5a : tagOkL svgTspan false
                        (assignRoot svgTspan p2.1 p2.2).2.children = true :=
                      assignRoot_strong svgTspan p2.1 p2.2 h4b
                    have h5b : tagOkL svgText true
                        (assignRoot svgTspan p2.1 p2.2).2.children = true :=
                      assignRoot_pres svgTspan svgText true (by decide) p2.1 p2.2 h4a
                    have h6a : tagOkL svgText false (assignRoot svgText
                        (assignRoot svgTspan p2.1 p2.2).1
                        (assignRoot svgTspan p2.1 p2.2).2).2.children = true :=
                      assignRoot_strong svgText (assignRoot svgTspan p2.1 p2.2).1
                        (assignRoot svgTspan p2.1 p2.2).2 h5b
                    have h6b : tagOkL svgTspan false (assignRoot svgText
                        (assignRoot svgTspan p2.1 p2.2).1
                        (assignRoot svgTspan p2.1 p2.2).2).2.children = true :=
                      assignRoot_pres svgText svgTspan false (by decide)
                        (assignRoot svgTspan p2.1 p2.2).1
                        (assignRoot svgTspan p2.1 p2.2).2 h5a
                    have h7a : tagOkL svgText false r7.children = true :=
                      prepRoot_pres svgText false (by decide) _ r7 (by rw [hpr]) h6a
                    have h7b : tagOkL svgTspan false r7.children = true :=
                      prepRoot_pres svgTspan false (by decide) _ r7 (by rw [hpr]) h6b
                    have h8a : tagOkL svgText false r8.children = true :=
                      expandRoot_pres svgText false r7 r8 (by rw [hex]) h7a
                    have h8b : tagOkL svgTspan false r8.children = true :=
                      expandRoot_pres svgTspan false r7 r8 (by rw [hex]) h7b
                    rw [hroot]
                    exact ttIds_ok (reorder_texts r8)
                      (reorder_texts_pres svgText false r8 h8a)
                      (reorder_texts_pres svgTspan false r8 h8b)
  · intro tg m cs
    exact ⟨(assignL_collect tg cs m).1, gapNums_range (collectL tg cs) m⟩

theorem c2_ids_amended_witness :
    make_translation_ready (docLang "ar") = .ok (docLang "ar", true) ∧
    (idsOfTTBelow (docLang "ar").root).all (idFlexB false) = true :=
  ⟨by decide, c2_ids_amended.1 (docLang "ar") (docLang "ar") (by decide)⟩

/-- C2 counterexample: on a document whose text and one tspan both carry the
custom id dup, and whose other tspan id trims to the empty string,
make_translation_ready succeeds while the result carries a duplicated id and
an empty id, refuting the claimed uniqueness and non-emptiness. -/
theorem c2_ids_counterexample :
    make_translation_ready docDupIds = .ok (docDupIdsOut, true)
    ∧ (idsOfTTBelow docDupIdsOut.root).count (some "dup") = 2
    ∧ (some "") ∈ idsOfTTBelow docDupIdsOut.root := by
  refine ⟨by decide, by decide, by decide⟩

/-- C5 counterexample: with siblings tagged la and la, en the duplicate check
compares whole unsplit attribute values before expansion, so normalization
succeeds and the resulting switch carries two sibling texts both tagged la,
refuting the claimed detection of a single tag equal to a member of another
sibling's comma list. -/
theorem c5_cross_comma_counterexample :
    make_translation_ready docCrossLang = .ok (docCrossLangOut, true)
    ∧ switchLangs docCrossLangOut = [some "la", some "-EN", some "la"]
    ∧ (switchLangs docCrossLangOut).count (some "la") = 2 := by
  refine ⟨by decide, by decide, by decide⟩

theorem hasDupB_eq_false_iff (l : List String) : hasDupB l = false ↔ l.Nodup := by
  induction l with
  | nil => simp [hasDupB]
  | cons x xs ih =>
    simp only [hasDupB, Bool.or_eq_false_iff, List.nodup_cons, ih]
    constructor
    · rintro ⟨h1, h2⟩
      refine ⟨fun hm => ?_, h2⟩
      rw [show (xs.contains x) = xs.elem x from rfl] at h1
      rw [List.elem_eq_true_of_mem hm] at h1
      exact Bool.noConfusion h1
    · rintro ⟨h1, h2⟩
      refine ⟨?_, h2⟩
      cases hc : xs.contains x with
      | false => rfl
      | true => exact absurd (List.elem_iff.mp hc) h1

/-- An element tree containing no namespaced switch node at all. -/
def switchFree (e : Elem) : Bool :=
  (e :: subElems e).all (fun x => !(x.tag == svgSwitch))

mutual

theorem expandElem_switchFree : ∀ (e : Elem),
    switchFree e = true → expandElem e = .ok e
  | .mk t a x cs tl => fun h => by
    unfold switchFree at h
    rw [List.all_cons] at h
    rcases Bool.and_eq_true_iff.mp h with ⟨ht, hsub⟩
    have ht2 : (t == svgSwitch) = false := by
      revert ht
      unfold Elem.tag
      cases t == svgSwitch <;> simp
    have hsub2 : (subElemsL cs).all (fun x => !(x.tag == svgSwitch)) = true := by
      revert hsub
      unfold subElems
      exact id
    unfold expandElem
    rw [ht2]
    simp only [Bool.false_eq_true, if_false]
    rw [expandL_switchFree cs hsub2]

theorem expandL_switchFree : ∀ (cs : List Elem),
    (subElemsL cs).all (fun x => !(x.tag == svgSwitch)) = true → expandL cs = .ok cs
  | [] => fun _ => rfl
  | c :: rest => fun h => by
    unfold subElemsL at h
    rw [List.all_cons, List.all_append] at h
    rcases Bool.and_eq_true_iff.mp h with ⟨hc, hrest⟩
    rcases Bool.and_eq_true_iff.mp hrest with ⟨hcsub, hrest2⟩
    have hcfree : switchFree c = true := by
      unfold switchFree
      rw [List.all_cons, hc, hcsub]
      rfl
    unfold expandL
    rw [expandElem_switchFree c hcfree, expandL_switchFree rest hrest2]

end

/-- Helper for the C5 amendment: with every child a text whose comma list is
duplicate-free and whose subtree holds no switch, a duplicate among the seen
tags and the children's unsplit tags makes the children loop raise
multiple-text-same-lang. -/
theorem expandChildren_dup : ∀ (cs : List Elem) (langs : List String),
    (∀ c ∈ cs, isTextChildTag c.tag = true) →
    (∀ c ∈ cs, hasDupB (splitCommaWs (tagOfChild c)) = false) →
    (∀ c ∈ cs, switchFree c = true) →
    hasDupB (langs ++ cs.map tagOfChild) = true →
    hasDupB langs = false →
    expandChildren langs cs = .error .multipleTextSameLang
  | [], langs => fun _ _ _ hdup hnod => by
    rw [List.map_nil, List.append_nil, hnod] at hdup
    exact Bool.noConfusion hdup
  | c :: rest, langs => fun hText hSplit hFree hdup hnod => by
    have htc := hText c (List.mem_cons_self c rest)
    have hsc := hSplit c (List.mem_cons_self c rest)
    have hfc := hFree c (List.mem_cons_self c rest)
    simp only [expandChildren, htc, if_true]
    cases hcont : langs.contains (tagOfChild c) with
    | true => simp
    | false =>
      simp only [Bool.false_eq_true, if_false, hsc]
      have hmem : tagOfChild c ∉ langs := by
        intro hm
        rw [show (langs.contains (tagOfChild c)) = langs.elem (tagOfChild c) from rfl,
          List.elem_eq_true_of_mem hm] at hcont
        exact Bool.noConfusion hcont
      have hd2 : hasDupB ((langs ++ [tagOfChild c]) ++ rest.map tagOfChild) = true := by
        rw [List.append_assoc, List.singleton_append]
        rw [List.map_cons] at hdup
        exact hdup
      have hn2 : hasDupB (langs ++ [tagOfChild c]) = false := by
        rw [hasDupB_eq_false_iff] at hnod ⊢
        rw [List.nodup_append]
        refine ⟨hnod, List.nodup_singleton _, ?_⟩
        intro a ha hb
        rw [List.mem_singleton] at hb
        subst hb
        exact hmem ha
      have hrec := expandChildren_dup rest (langs ++ [tagOfChild c])
        (fun d hd => hText d (List.mem_cons_of_mem c hd))
        (fun d hd => hSplit d (List.mem_cons_of_mem c hd))
        (fun d hd => hFree d (List.mem_cons_of_mem c hd))
        hd2 hn2
      rw [expandElem_switchFree c hfc, hrec]
      cases hlen : (splitCommaWs (tagOfChild c)).length == 1 <;> simp

/-- C5 amended: the duplicate-tag check of the switch pass compares whole
unsplit systemLanguage values among siblings before the comma-list expansion:
a switch whose text children, all with duplicate-free comma lists and
switch-free subtrees, repeat one unsplit tag value is rejected with
multiple-text-same-lang. Duplicates that only arise from expansion, one
sibling's single tag inside another's comma list, are not detected, as the
counterexample shows. -/
theorem c5_whole_tag_duplicate_raises (a : Attrs) (x tl : Option String) (cs : List Elem)
    (h1 : ∀ c ∈ cs, isTextChildTag c.tag = true)
    (h2 : ∀ c ∈ cs, hasDupB (splitCommaWs (tagOfChild c)) = false)
    (h3 : ∀ c ∈ cs, switchFree c = true)
    (h4 : hasDupB (cs.map tagOfChild) = true) :
    expandElem (.mk svgSwitch a x cs tl) = .error .multipleTextSameLang := by
  have hd : hasDupB ([] ++ cs.map tagOfChild) = true := by
    rw [List.nil_append]
    exact h4
  have h := expandChildren_dup cs [] h1 h2 h3 hd rfl
  unfold expandElem
  simp only [beq_self_eq_true, if_true, h]

/-- C5 amended witness: two sibling texts both tagged la inside one switch. -/
theorem c5_whole_tag_duplicate_raises_witness :
    expandElem (.mk svgSwitch [] none
      [ .mk svgText [("systemLanguage", "la")] (some "a") [] none
      , .mk svgText [("systemLanguage", "la")] (some "b") [] none ] none)
      = .error .multipleTextSameLang :=
  c5_whole_tag_duplicate_raises [] none none _
    (by decide) (by decide) (by decide) (by decide)

/-- C6 counterexample: the second switch of docCrossSwitch has no fallback
text block, yet extract records the translation ar to marhaba under the
first switch's fallback text hello, because span resolution consults the
document-global default_tspans_by_id table rather than the span's own switch. -/
theorem c6_cross_switch_counterexample :
    extract_doc docCrossSwitch true =
      .ok ⟨.present (some [(some "trsvg1", "hello")]) [("hello", [("ar", "marhaba")])], [], []⟩
    ∧ (match docCrossSwitch.root.children with
       | [_, sw2] => noFallbackIn sw2
       | _ => false) = true := by
  refine ⟨by decide, by decide⟩

theorem mem_values_kvset {κ α : Type} [BEq κ] (l : List (κ × α)) (k0 : κ) (v0 v : α)
    (h : v ∈ (kvset l k0 v0).map Prod.snd) : v = v0 ∨ v ∈ l.map Prod.snd := by
  induction l with
  | nil => simpa [kvset] using h
  | cons p rest ih =>
    unfold kvset at h
    cases hb : (p.1 == k0) with
    | true =>
      rw [hb] at h
      simp only [if_true, List.map_cons, List.mem_cons] at h
      rcases h with h | h
      · exact Or.inl h
      · exact Or.inr (List.mem_cons_of_mem _ h)
    | false =>
      rw [hb] at h
      simp only [Bool.false_eq_true, if_false, List.map_cons, List.mem_cons] at h
      rcases h with h | h
      · exact Or.inr (by rw [List.map_cons, List.mem_cons]; exact Or.inl h)
      · rcases ih h with h2 | h2
        · exact Or.inl h2
        · exact Or.inr (List.mem_cons_of_mem _ h2)

theorem alookup_mem_values {κ α : Type} [BEq κ] (l : List (κ × α)) (k : κ) (v : α)
    (h : alookup l k = some v) : v ∈ l.map Prod.snd := by
  induction l with
  | nil => simp [alookup] at h
  | cons p rest ih =>
    unfold alookup at h
    cases hb : (p.1 == k) with
    | true =>
      rw [hb] at h
      simp only [if_true, Option.some.injEq] at h
      subst h
      exact List.mem_cons_self _ _
    | false =>
      rw [hb] at h
      simp only [Bool.false_eq_true, if_false] at h
      exact List.mem_cons_of_mem _ (ih h)

theorem alookup_foldl_kvset_values {κ α : Type} [BEq κ] :
    ∀ (ps : List (κ × α)) (l0 : List (κ × α)) (k : κ) (v : α),
    alookup (ps.foldl (fun acc p => kvset acc p.1 p.2) l0) k = some v →
    v ∈ ps.map Prod.snd ∨ v ∈ l0.map Prod.snd
  | [], l0, k, v => fun h => Or.inr (alookup_mem_values l0 k v h)
  | p :: rest, l0, k, v => fun h => by
    rw [List.foldl_cons] at h
    rcases alookup_foldl_kvset_values rest (kvset l0 p.1 p.2) k v h with h2 | h2
    · exact Or.inl (List.mem_cons_of_mem _ h2)
    · rcases mem_values_kvset l0 p.1 p.2 v h2 with h3 | h3
      · exact Or.inl (by rw [List.map_cons]; rw [h3]; exact List.mem_cons_self _ _)
      · exact Or.inr h3

/-- The condition of the C6 amendment on one switch: every text child is
tagged, and each of its tspan children with non-empty text carries an id. -/
def switchOkC6 (sw : Elem) : Bool :=
  sw.children.all (fun t => !(t.tag == svgText) ||
    ((truthyAttr t.attrs "systemLanguage").isSome &&
      t.children.all (fun sp => !(sp.tag == svgTspan) ||
        (match sp.text with
         | some s => s.isEmpty || (alookup sp.attrs "id").isSome
         | none => true))))

theorem storeStep_nil (lang baseId nt : String) :
    storeStep [] lang [] baseId nt = [] := rfl

theorem contents_fold_keep (lang : String) (tspansToId : List (String × Option String))
    (hv : ∀ x v, alookup tspansToId x = some v → v.isSome = true) :
    ∀ (contents : List String),
    (contents.foldlM (fun news text =>
      match alookup tspansToId (pyStrip text) with
      | none => Except.ok (storeStep [] lang news "" (normalize_text text false))
      | some none => Except.error PyErr.attributeError
      | some (some idv) =>
        Except.ok (storeStep [] lang news (pyStrip (dashHead idv))
          (normalize_text text false)))
      ([] : NewMap)) = .ok []
  | [] => rfl
  | text :: rest => by
    rw [List.foldlM_cons]
    cases hl : alookup tspansToId (pyStrip text) with
    | none =>
      simp only [storeStep_nil]
      exact contents_fold_keep lang tspansToId hv rest
    | some ov =>
      cases ov with
      | none => exact absurd (hv _ _ hl) (by simp)
      | some idv =>
        simp only [storeStep_nil]
        exact contents_fold_keep lang tspansToId hv rest

theorem procTagged_keep (t : Elem) (lang : String) (swT : List (String × List String))
    (ht : t.children.all (fun sp => !(sp.tag == svgTspan) ||
      (match sp.text with
       | some s => s.isEmpty || (alookup sp.attrs "id").isSome
       | none => true)) = true) :
    ∃ swT2, procTagged ([], swT) [] t lang = .ok ([], swT2) := by
  unfold procTagged
  have hv : ∀ x v, alookup (if (tspanChildren t).isEmpty then []
      else ((tspanChildren t).filterMap (fun sp => match sp.text with
        | some s => if s.isEmpty then none else some (pyStrip s, alookup sp.attrs "id")
        | none => none)).foldl (fun acc p => kvset acc p.1 p.2) []) x = some v →
      v.isSome = true := by
    intro x v hl
    cases he : (tspanChildren t).isEmpty with
    | true => rw [he] at hl; simp [alookup] at hl
    | false =>
      rw [he] at hl
      simp only [Bool.false_eq_true, if_false] at hl
      rcases alookup_foldl_kvset_values _ _ _ _ hl with h2 | h2
      · rw [List.mem_map] at h2
        rcases h2 with ⟨sp, hsp, hpair⟩
        rw [List.mem_filterMap] at hsp
        rcases hsp with ⟨sp0, hsp0, hf⟩
        have hsp0tag : (sp0.tag == svgTspan) = true := by
          have := List.of_mem_filter hsp0
          exact this
        have hsp0mem : sp0 ∈ t.children := List.mem_of_mem_filter hsp0
        have hok := (List.all_eq_true.mp ht) sp0 hsp0mem
        rw [hsp0tag] at hok
        simp only [Bool.not_true, Bool.false_or] at hok
        cases hx : sp0.text with
        | none => rw [hx] at hf; exact absurd hf (by simp)
        | some s =>
          rw [hx] at hf hok
          cases hse : s.isEmpty with
          | true => simp only [hse, if_true] at hf; exact absurd hf (by simp)
          | false =>
            simp only [hse, Bool.false_eq_true, if_false, Option.some.injEq] at hf
            simp only [hse, Bool.false_eq_true, Bool.false_or] at hok
            rw [← hpair, ← hf]
            exact hok
      · simp at h2
  rw [contents_fold_keep lang _ hv (textContentsOf t)]
  exact ⟨_, rfl⟩

theorem tagged_fold_keep :
    ∀ (ts : List (Elem × String)) (swT : List (String × List String)),
    (∀ p ∈ ts, p.1.children.all (fun sp => !(sp.tag == svgTspan) ||
      (match sp.text with
       | some s => s.isEmpty || (alookup sp.attrs "id").isSome
       | none => true)) = true) →
    ∃ swT2, (ts.foldlM (fun st p => procTagged st [] p.1 p.2)
      (([], swT) : NewMap × List (String × List String))) = .ok ([], swT2)
  | [], swT => fun _ => ⟨swT, rfl⟩
  | p :: rest, swT => fun h => by
    rw [List.foldlM_cons]
    rcases procTagged_keep p.1 p.2 swT (h p (List.mem_cons_self _ _)) with ⟨swT1, hp⟩
    rw [hp]
    rcases tagged_fold_keep rest swT1 (fun q hq => h q (List.mem_cons_of_mem _ hq)) with
      ⟨swT2, hr⟩
    exact ⟨swT2, hr⟩

theorem procSwitch_keep (ci : Bool) (sw : Elem) (hok : switchOkC6 sw = true) :
    procSwitch ci ⟨[], [], []⟩ sw = .ok ⟨[], [], []⟩ := by
  unfold procSwitch
  dsimp only
  cases he : (sw.children.filter (fun c => c.tag == svgText)).isEmpty with
  | true => rfl
  | false =>
    simp only [Bool.false_eq_true, if_false]
    have huntag : (sw.children.filter (fun c => c.tag == svgText)).filter
        (fun t => (truthyAttr t.attrs "systemLanguage").isNone) = [] := by
      rw [List.filter_eq_nil_iff]
      intro t htmem
      have htag : (t.tag == svgText) = true := (List.mem_filter.mp htmem).2
      have htin : t ∈ sw.children := (List.mem_filter.mp htmem).1
      have := (List.all_eq_true.mp hok) t htin
      rw [htag] at this
      simp only [Bool.not_true, Bool.false_or, Bool.and_eq_true] at this
      rcases Option.isSome_iff_exists.mp this.1 with ⟨v, hv⟩
      simp [hv]
    rw [huntag]
    have htags : ∀ p ∈ (sw.children.filter (fun c => c.tag == svgText)).filterMap
        (fun t => match truthyAttr t.attrs "systemLanguage" with
          | some lg => some (t, lg)
          | none => none),
        p.1.children.all (fun sp => !(sp.tag == svgTspan) ||
          (match sp.text with
           | some s => s.isEmpty || (alookup sp.attrs "id").isSome
           | none => true)) = true := by
      intro p hp
      rw [List.mem_filterMap] at hp
      rcases hp with ⟨t, htmem, hf⟩
      have htag : (t.tag == svgText) = true := (List.mem_filter.mp htmem).2
      have htin : t ∈ sw.children := (List.mem_filter.mp htmem).1
      have hra := (List.all_eq_true.mp hok) t htin
      rw [htag] at hra
      simp only [Bool.not_true, Bool.false_or, Bool.and_eq_true] at hra
      have hp1 : p.1 = t := by
        cases hl : truthyAttr t.attrs "systemLanguage" with
        | none => rw [hl] at hf; exact absurd hf (by simp)
        | some lg =>
          rw [hl] at hf
          simp only [Option.some.injEq] at hf
          rw [← hf]
      rw [hp1]
      exact hra.2
    rcases tagged_fold_keep _ [] htags with ⟨swT2, hfold⟩
    rw [List.foldl_nil, hfold]
    cases swT2 <;> rfl

theorem extractSwitches_keep (ci : Bool) :
    ∀ (sws : List Elem), (∀ sw ∈ sws, switchOkC6 sw = true) →
    extractSwitches ci ⟨[], [], []⟩ sws = .ok ⟨[], [], []⟩
  | [] => fun _ => rfl
  | sw :: rest => fun h => by
    unfold extractSwitches
    rw [procSwitch_keep ci sw (h sw (List.mem_cons_self _ _))]
    exact extractSwitches_keep ci rest (fun q hq => h q (List.mem_cons_of_mem _ hq))

/-- C6 amended: span resolution is document-global, so the claim holds only
at document scope: when no switch anywhere in the document has an untagged
text child, and tspans of tagged texts with non-empty text carry ids so the
lookup path is reached, extract records nothing at all: the new entry is
popped and old-way and title are empty. -/
theorem c6_no_fallback_document_empty (d : Doc) (ci : Bool)
    (h : ∀ sw ∈ (d.root :: subElems d.root).filter (fun e => e.tag == svgSwitch),
      switchOkC6 sw = true) :
    extract_doc d ci = .ok ⟨.absent, [], []⟩ := by
  unfold extract_doc
  dsimp only
  rw [extractSwitches_keep ci _ h]
  rfl

/-- C6 amended witness: one switch holding only a tagged Arabic text. -/
theorem c6_no_fallback_document_empty_witness :
    extract_doc (svgDoc
      [ .mk svgSwitch [] none
        [ .mk svgText [("id", "a"), ("systemLanguage", "ar")] none
          [ .mk svgTspan [("id", "b")] (some "marhaba") [] none ] none ] none ]) true
      = .ok ⟨.absent, [], []⟩ :=
  c6_no_fallback_document_empty _ true (by decide)

/-- C8 counterexample: a document with no text element anywhere but also no
default namespace declaration is not returned unchanged, because the
namespace-sanity pass adds an xmlns declaration before the early return. -/
theorem c8_ns_mutation_counterexample :
    make_translation_ready docNoNs = .ok (docNoNsOut, false)
    ∧ docNoNsOut ≠ docNoNs := by
  refine ⟨by decide, by decide⟩

/-- A no-text document with a sane default namespace, for the C8 witness. -/
def docPlainNoText : Doc :=
  ⟨some SVG_NS, .mk svgRootTag [("width", "10")] none
    [ .mk (nsTag SVG_NS "rect") [("x", "1")] none [] none ] none⟩

/-- C8 amended: when the document declares a sane default namespace, a
document with no text element anywhere is returned unchanged through the
early-return path, and nothing is written back. -/
theorem c8_no_text_unchanged (d : Doc) (ns : String) (wb : Bool)
    (h1 : d.defaultNs = some ns)
    (h2 : matchWithNL entitySeq1 ns.data = false)
    (h3 : findAll (fun e => e.tag == svgText) d.root = []) :
    make_translation_ready d = .ok (d, false)
    ∧ makeTranslationReadyFile d wb = (.ok d, none) := by
  have hns : nsFix d = d := by
    unfold nsFix
    rw [h1]
    simp [h2]
  have hmain : make_translation_ready d = .ok (d, false) := by
    unfold make_translation_ready
    rw [hns]
    simp [h3]
  refine ⟨hmain, ?_⟩
  unfold makeTranslationReadyFile
  rw [hmain]
  simp

/-- C8 amended witness: a concrete namespaced document holding only a rect. -/
theorem c8_no_text_unchanged_witness :
    make_translation_ready docPlainNoText = .ok (docPlainNoText, false)
    ∧ makeTranslationReadyFile docPlainNoText true = (.ok docPlainNoText, none) :=
  c8_no_text_unchanged docPlainNoText SVG_NS true (by decide) (by decide) (by decide)

theorem pyLast4_append (s y : String) (hy : y.data.length = 4) :
    pyLast4 (s ++ y) = y := by
  unfold pyLast4
  have hd : (s ++ y).data = s.data ++ y.data := rfl
  rw [hd, List.length_append, hy]
  have h2 : s.data.length + 4 - 4 = s.data.length := by omega
  rw [h2, List.drop_left]

theorem pyDropLast4_append (s y : String) (hy : y.data.length = 4) :
    pyDropLast4 (s ++ y) = s := by
  unfold pyDropLast4
  have hd : (s ++ y).data = s.data ++ y.data := rfl
  rw [hd, List.length_append, hy]
  have h2 : s.data.length + 4 - 4 = s.data.length := by omega
  rw [h2, List.take_left]

theorem pyStrip_append_space (s : String) : pyStrip (s ++ " ") = pyStrip s := by
  unfold pyStrip
  have hd : (s ++ " ").data = s.data ++ [' '] := rfl
  rw [hd, List.dropWhile_append]
  cases he : (s.data.dropWhile pyIsSpace).isEmpty with
  | true =>
    simp only [if_true]
    rw [List.isEmpty_iff] at he
    rw [he]
    simp [List.dropWhile, pyIsSpace]
  | false =>
    simp only [Bool.false_eq_true, if_false]
    rw [List.reverse_append]
    simp [List.dropWhile, pyIsSpace]

theorem dropWhile_head_not {α : Type} (p : α → Bool) (l : List α) (c : α)
    (h : (l.dropWhile p).head? = some c) : p c = false := by
  induction l with
  | nil => simp [List.dropWhile] at h
  | cons x xs ih =>
    rw [List.dropWhile_cons] at h
    by_cases hx : p x = true
    · rw [if_pos hx] at h
      exact ih h
    · rw [if_neg hx] at h
      simp only [List.head?_cons, Option.some.injEq] at h
      subst h
      simpa using hx

theorem pyStrip_last_not_space (u : String) (c : Char)
    (h : (pyStrip u).data.getLast? = some c) : pyIsSpace c = false := by
  unfold pyStrip at h
  simp only [List.getLast?_reverse] at h
  exact dropWhile_head_not pyIsSpace _ c h

theorem alookup_mem_keys {α : Type} (l : List (String × α)) (k : String) (v : α)
    (h : alookup l k = some v) : k ∈ l.map Prod.fst := by
  induction l with
  | nil => simp [alookup] at h
  | cons p rest ih =>
    unfold alookup at h
    cases hb : (p.1 == k) with
    | true =>
      rw [List.map_cons, List.mem_cons]
      exact Or.inl (beq_iff_eq.mp hb).symm
    | false =>
      rw [hb] at h
      simp only [Bool.false_eq_true, if_false] at h
      exact List.mem_cons_of_mem _ (ih h)

theorem mem_keys_kvset {α : Type} (l : List (String × α)) (k0 k : String) (v : α)
    (h : k ∈ (kvset l k0 v).map Prod.fst) : k = k0 ∨ k ∈ l.map Prod.fst := by
  induction l with
  | nil => simpa [kvset] using h
  | cons p rest ih =>
    unfold kvset at h
    cases hb : (p.1 == k0) with
    | true =>
      rw [hb] at h
      simp only [if_true] at h
      rw [List.map_cons, List.mem_cons] at h
      rcases h with h | h
      · exact Or.inl h
      · exact Or.inr (List.mem_cons_of_mem _ h)
    | false =>
      rw [hb] at h
      simp only [Bool.false_eq_true, if_false, List.map_cons, List.mem_cons] at h
      rcases h with h | h
      · exact Or.inr (by rw [List.map_cons, List.mem_cons]; exact Or.inl h)
      · rcases ih h with h2 | h2
        · exact Or.inl h2
        · exact Or.inr (List.mem_cons_of_mem _ h2)

/-- The loop step of make_title_translations as a named function. -/
def mttStep (acc : NewMap) (p : String × LangMap) : NewMap :=
  if p.1.isEmpty || p.1 == pyLast4 p.1 || !pyIsDigitStr (pyLast4 p.1) then acc
  else if p.2.all (fun lv => pyIsDigitStr (pyLast4 lv.2) && pyLast4 lv.2 == pyLast4 p.1) then
    kvset acc (pyStrip (pyDropLast4 p.1))
      (p.2.map (fun lv => (lv.1, pyStrip (pyDropLast4 lv.2))))
  else acc

theorem make_title_translations_eq_foldl (M : NewMap) :
    make_title_translations M = M.foldl mttStep [] := rfl

theorem mtt_fold_no_touch : ∀ (M : List (String × LangMap)) (acc : NewMap) (ts : String),
    (∀ p ∈ M, pyStrip (pyDropLast4 p.1) ≠ ts) →
    alookup (M.foldl mttStep acc) ts = alookup acc ts
  | [], acc, ts => fun _ => rfl
  | p :: rest, acc, ts => fun h => by
    rw [List.foldl_cons]
    rw [mtt_fold_no_touch rest (mttStep acc p) ts
      (fun q hq => h q (List.mem_cons_of_mem _ hq))]
    unfold mttStep
    split
    · rfl
    · split
      · exact alookup_kvset_ne _ _ _ _ (Ne.symm (h p (List.mem_cons_self _ _)))
      · rfl

theorem mtt_fold_main : ∀ (M : List (String × LangMap)) (acc : NewMap)
    (k0 ts : String) (m : LangMap),
    alookup M k0 = some m →
    (M.map Prod.fst).Nodup →
    (∀ p ∈ M, p.1 ≠ k0 → pyStrip (pyDropLast4 p.1) ≠ ts) →
    pyStrip (pyDropLast4 k0) = ts →
    (k0.isEmpty || k0 == pyLast4 k0 || !pyIsDigitStr (pyLast4 k0)) = false →
    (m.all (fun lv => pyIsDigitStr (pyLast4 lv.2) && pyLast4 lv.2 == pyLast4 k0)) = true →
    alookup (M.foldl mttStep acc) ts =
      some (m.map (fun lv => (lv.1, pyStrip (pyDropLast4 lv.2))))
  | [], acc, k0, ts, m => fun hmem => by simp [alookup] at hmem
  | p :: rest, acc, k0, ts, m => fun hmem hnodup huniq hts hqual hall => by
    rw [List.foldl_cons]
    unfold alookup at hmem
    cases hb : (p.1 == k0) with
    | true =>
      rw [hb] at hmem
      simp only [if_true, Option.some.injEq] at hmem
      have hpk : p.1 = k0 := beq_iff_eq.mp hb
      have hstep : mttStep acc p =
          kvset acc ts (m.map (fun lv => (lv.1, pyStrip (pyDropLast4 lv.2)))) := by
        unfold mttStep
        rw [hpk, hmem, hqual, hts]
        simp only [Bool.false_eq_true, if_false]
        rw [hall]
        simp
      rw [hstep]
      rw [List.map_cons, List.nodup_cons] at hnodup
      have hrest : ∀ q ∈ rest, pyStrip (pyDropLast4 q.1) ≠ ts := by
        intro q hq
        refine huniq q (List.mem_cons_of_mem _ hq) ?_
        intro hqk
        apply hnodup.1
        rw [hpk, ← hqk]
        exact List.mem_map_of_mem Prod.fst hq
      rw [mtt_fold_no_touch rest _ ts hrest]
      exact alookup_kvset_self _ _ _
    | false =>
      rw [hb] at hmem
      simp only [Bool.false_eq_true, if_false] at hmem
      rw [List.map_cons, List.nodup_cons] at hnodup
      exact mtt_fold_main rest (mttStep acc p) k0 ts m hmem hnodup.2
        (fun q hq => huniq q (List.mem_cons_of_mem _ hq)) hts hqual hall

theorem mtt_fold_keys : ∀ (M : List (String × LangMap)) (acc : NewMap),
    (∀ u ∈ acc.map Prod.fst, ∃ w : String, u = pyStrip w) →
    ∀ u ∈ (M.foldl mttStep acc).map Prod.fst, ∃ w : String, u = pyStrip w
  | [], acc => fun h => h
  | p :: rest, acc => fun h => by
    rw [List.foldl_cons]
    refine mtt_fold_keys rest (mttStep acc p) ?_
    intro u hu
    unfold mttStep at hu
    split at hu
    · exact h u hu
    · split at hu
      · rcases mem_keys_kvset _ _ _ _ hu with h2 | h2
        · exact ⟨pyDropLast4 p.1, h2⟩
        · exact h u h2
      · exact h u hu

/-- C9 amended: the year round trip holds up to whitespace trimming of the
stored values, provided no other key of the mapping year-strips to the same
trimmed title key: the expansion returns the trimmed year-stripped stored
value, one space, and the year, which equals the original value exactly when
that value carries no extra whitespace around its year-free prefix. -/
theorem c9_year_round_trip (M : NewMap) (t y : String) (m : LangMap)
    (hy4 : y.data.length = 4)
    (hyd : pyIsDigitStr y = true)
    (hmem : alookup M (t ++ " " ++ y) = some m)
    (hnodup : (M.map Prod.fst).Nodup)
    (hvals : ∀ lv ∈ m, ∃ w : String, lv.2 = w ++ " " ++ y)
    (hm : m ≠ [])
    (huniq : ∀ p ∈ M, p.1 ≠ t ++ " " ++ y → pyStrip (pyDropLast4 p.1) ≠ pyStrip t) :
    alookup (get_titles_translations (make_title_translations M) [t ++ " " ++ y])
        (t ++ " " ++ y)
      = some (m.map (fun lv => (lv.1, pyStrip (pyDropLast4 lv.2) ++ " " ++ y))) := by
  have hlast : pyLast4 (t ++ " " ++ y) = y := pyLast4_append (t ++ " ") y hy4
  have hdrop : pyDropLast4 (t ++ " " ++ y) = t ++ " " := pyDropLast4_append (t ++ " ") y hy4
  have hts : pyStrip (pyDropLast4 (t ++ " " ++ y)) = pyStrip t := by
    rw [hdrop]
    exact pyStrip_append_space t
  have hqual : ((t ++ " " ++ y).isEmpty || (t ++ " " ++ y) == pyLast4 (t ++ " " ++ y)
      || !pyIsDigitStr (pyLast4 (t ++ " " ++ y))) = false := by
    rw [hlast, hyd]
    have hne : ((t ++ " " ++ y) == y) = false := by
      rw [beq_eq_false_iff_ne]
      intro he
      have hlen : (t ++ " " ++ y).data.length = y.data.length := by rw [he]
      have hd : (t ++ " " ++ y).data = t.data ++ [' '] ++ y.data := rfl
      rw [hd, List.length_append, List.length_append] at hlen
      simp at hlen
    rw [hne]
    have hemp : (t ++ " " ++ y).isEmpty = false := by
      have hd : (t ++ " " ++ y).data = t.data ++ [' '] ++ y.data := rfl
      cases ht : (t ++ " " ++ y).isEmpty with
      | false => rfl
      | true =>
        rw [String.isEmpty_iff] at ht
        have h0 : (t ++ " " ++ y).data = [] := by rw [ht]
        rw [hd] at h0
        simp at h0
    rw [hemp]
    rfl
  have hall : (m.all (fun lv => pyIsDigitStr (pyLast4 lv.2)
      && pyLast4 lv.2 == pyLast4 (t ++ " " ++ y))) = true := by
    rw [List.all_eq_true]
    intro lv hlv
    rcases hvals lv hlv with ⟨w, hw⟩
    have hw2 : lv.2 = (w ++ " ") ++ y := by rw [hw]
    rw [hw2, pyLast4_append (w ++ " ") y hy4, hlast, hyd, beq_self_eq_true]
    rfl
  have hmain : alookup (make_title_translations M) (pyStrip t)
      = some (m.map (fun lv => (lv.1, pyStrip (pyDropLast4 lv.2)))) := by
    rw [make_title_translations_eq_foldl]
    exact mtt_fold_main M [] (t ++ " " ++ y) (pyStrip t) m hmem hnodup huniq hts hqual hall
  have hnone : alookup (make_title_translations M) (t ++ " ") = none := by
    cases hl : alookup (make_title_translations M) (t ++ " ") with
    | none => rfl
    | some v =>
      have hk := alookup_mem_keys _ _ _ hl
      rw [make_title_translations_eq_foldl] at hk
      rcases mtt_fold_keys M [] (by intro u hu; simp at hu) _ hk with ⟨w, hw⟩
      have hlast2 : (t ++ " ").data.getLast? = some ' ' := by
        have hd : (t ++ " ").data = t.data ++ [' '] := rfl
        rw [hd, List.getLast?_concat]
      rw [hw] at hlast2
      have := pyStrip_last_not_space w ' ' hlast2
      simp [pyIsSpace] at this
  unfold get_titles_translations
  rw [List.foldl_cons, List.foldl_nil]
  rw [hlast, hyd]
  simp only [if_true]
  rw [hdrop, hnone, pyStrip_append_space t, hmain]
  have hne : (m.map (fun lv => (lv.1, pyStrip (pyDropLast4 lv.2)))).isEmpty = false := by
    cases m with
    | nil => exact absurd rfl hm
    | cons a l => rfl
  unfold pyOrMap
  simp only [hne, Bool.false_eq_true, if_false]
  rw [show kvset ([] : NewMap) (t ++ " " ++ y)
      ((m.map (fun lv => (lv.1, pyStrip (pyDropLast4 lv.2)))).map
        (fun lv => (lv.1, lv.2 ++ " " ++ y)))
    = [(t ++ " " ++ y, (m.map (fun lv => (lv.1, pyStrip (pyDropLast4 lv.2)))).map
        (fun lv => (lv.1, lv.2 ++ " " ++ y)))] from rfl]
  unfold alookup
  rw [beq_self_eq_true]
  simp only [if_true, Option.some.injEq, List.map_map]
  rfl

/-- C9 amended witness: a singleton mapping with key a 2020 and value b 2020
expands back to b 2020. -/
theorem c9_year_round_trip_witness :
    alookup (get_titles_translations
        (make_title_translations [("a 2020", [("la", "b 2020")])]) ["a 2020"]) "a 2020"
      = some [("la", "b 2020")] := by
  have h := c9_year_round_trip [("a 2020", [("la", "b 2020")])] "a" "2020"
    [("la", "b 2020")] (by decide) (by decide) (by decide) (by decide)
    (by
      intro lv hlv
      rw [List.mem_singleton] at hlv
      subst hlv
      exact ⟨"b", by decide⟩)
    (by decide)
    (by
      intro p hp hne
      rw [List.mem_singleton] at hp
      subst hp
      exact absurd (by decide) hne)
  have he : ("a" ++ " " ++ "2020" : String) = "a 2020" := by decide
  rw [he] at h
  rw [h]
  decide

/-- C9 counterexample: both keys of titlesCollision satisfy the year
condition of the claim, and the second overwrites the first's title entry, so
the round trip returns y 2020 where the original mapping stored x 2020. -/
theorem c9_collision_counterexample :
    get_titles_translations (make_title_translations titlesCollision) ["a 2020"] =
      [("a 2020", [("la", "y 2020")])]
    ∧ alookup titlesCollision "a 2020" = some [("la", "x 2020")]
    ∧ ("y 2020" : String) ≠ "x 2020" := by
  refine ⟨by decide, by decide, by decide⟩

end SvgModel
